import Mathlib

/-!
Verification of the weaver task-orchestration engine (crates/weaver-core).

This file shallowly embeds the in-memory queue of `weaver-core` in Lean:

* `src/queue/state.rs`      -> `Weaver.TaskState`
* `src/queue/retry.rs`      -> `Weaver.RetryPolicy`
* `src/queue/record.rs`     -> `Weaver.TaskRecord`
* `src/queue/dependency.rs` -> `Weaver.DependencyGraph`
* `src/queue/memory.rs`     -> `Weaver.QState` and the queue operations
* `src/domain/job.rs`       -> `Weaver.JobRecord`, `Weaver.JobState`
* `src/domain/decision.rs`  -> `Weaver.Decision`, `Weaver.DefaultDecider`
* `src/domain/outcome.rs`   -> `Weaver.Outcome`
* `src/domain/spec.rs`      -> `Weaver.JobSpec`, `Weaver.TaskSpec`, `Weaver.Budget`

Modelling conventions:

* The 128-bit ULID identifiers (`JobId`, `TaskId`, `AttemptId`) are modelled
  as `Nat`: the in-memory queue allocates them from the sequential counters
  `next_job_id` / `next_task_id` / `next_attempt_id` starting at 1, and the
  counters realistically never overflow `u128`.
* `Instant` and `Duration` are modelled as `Rat` (an abstract time axis in
  seconds).  The floating-point arithmetic of `RetryPolicy::next_delay`
  (f64 `powi` and multiplication) is modelled by exact rational arithmetic.
* `HashMap` and `HashSet` are modelled as insertion-ordered association
  lists / lists without duplicate keys; `VecDeque` as a list with its head
  at the front; `BinaryHeap` as a list from which `promote_scheduled_tasks`
  repeatedly extracts a minimal element.  Where the Rust iteration order of
  a `HashMap` is unspecified, the model fixes insertion order.
* `serde_json::Value` payloads are never inspected by the queue logic and
  are modelled by the abstract type `Weaver.Json` (a `Nat`).
* Rust errors (`WeaverError`) are modelled where an operation can fail.
-/

namespace Weaver

/-- Identifier of a Job (`domain/ids.rs`, modelled as the allocation counter value). -/
abbrev JobId := Nat

/-- Identifier of a Task (`domain/ids.rs`). -/
abbrev TaskId := Nat

/-- Identifier of an Attempt (`domain/ids.rs`). -/
abbrev AttemptId := Nat

/-- Abstract time axis modelling `std::time::Instant` (and `Duration` as differences). -/
abbrev Time := Rat

/-- Abstract model of `serde_json::Value`: the queue logic never inspects payloads. -/
abbrev Json := Nat

/-- Task type tag (`domain/task.rs`, `TaskType`). -/
abbrev TaskType := String

/-- Association-list lookup, modelling `HashMap::get` (first matching key). -/
def alookup (k : Nat) : List (Nat × α) → Option α
  | [] => none
  | (k', v) :: rest => if k' = k then some v else alookup k rest

/-- Apply `f` to the value stored at key `k` (no-op when absent), modelling
`if let Some(v) = map.get_mut(&k) { ... }`. -/
def amodify (k : Nat) (f : α → α) : List (Nat × α) → List (Nat × α)
  | [] => []
  | (k', v) :: rest => if k' = k then (k', f v) :: amodify k f rest else (k', v) :: amodify k f rest

/-- Operation `HashMap::insert`: replace the value at an existing key, else append the entry. -/
def ainsert (k : Nat) (v : α) (l : List (Nat × α)) : List (Nat × α) :=
  if (alookup k l).isSome then amodify k (fun _ => v) l else l ++ [(k, v)]

theorem alookup_amodify_self (k : Nat) (f : α → α) (l : List (Nat × α)) :
    alookup k (amodify k f l) = (alookup k l).map f := by
  induction l with
  | nil => rfl
  | cons p rest ih =>
    obtain ⟨k', v⟩ := p
    by_cases h : k' = k <;> simp [alookup, amodify, h, ih]

theorem alookup_amodify_ne (k k₀ : Nat) (f : α → α) (l : List (Nat × α)) (h : k₀ ≠ k) :
    alookup k₀ (amodify k f l) = alookup k₀ l := by
  induction l with
  | nil => rfl
  | cons p rest ih =>
    obtain ⟨k', v⟩ := p
    simp only [amodify]
    by_cases hk : k' = k
    · rw [if_pos hk]
      have hne : ¬ k' = k₀ := by
        rw [hk]
        exact fun hh => h hh.symm
      simp only [alookup, if_neg hne]
      exact ih
    · rw [if_neg hk]
      simp only [alookup]
      by_cases hk0 : k' = k₀
      · rw [if_pos hk0, if_pos hk0]
      · rw [if_neg hk0, if_neg hk0]
        exact ih

theorem alookup_append (k : Nat) (l₁ l₂ : List (Nat × α)) :
    alookup k (l₁ ++ l₂) = ((alookup k l₁).rec (alookup k l₂) (fun v => some v)) := by
  induction l₁ with
  | nil => rfl
  | cons p rest ih =>
    obtain ⟨k', v⟩ := p
    by_cases h : k' = k <;> simp [alookup, h, ih]

theorem alookup_ainsert_self (k : Nat) (v : α) (l : List (Nat × α)) :
    alookup k (ainsert k v l) = some v := by
  unfold ainsert
  by_cases h : (alookup k l).isSome
  · obtain ⟨w, hw⟩ := Option.isSome_iff_exists.mp h
    simp [h, alookup_amodify_self, hw]
  · have hnone : alookup k l = none := Option.not_isSome_iff_eq_none.mp h
    simp [h, alookup_append, hnone, alookup]

theorem alookup_ainsert_ne (k k₀ : Nat) (v : α) (l : List (Nat × α)) (h : k₀ ≠ k) :
    alookup k₀ (ainsert k v l) = alookup k₀ l := by
  unfold ainsert
  by_cases hs : (alookup k l).isSome
  · simp [hs, alookup_amodify_ne _ _ _ _ h]
  · simp only [hs, Bool.false_eq_true, if_false, alookup_append]
    have hne : ¬ k = k₀ := fun hh => h hh.symm
    cases hv : alookup k₀ l <;> simp [hv, alookup, hne]

theorem amodify_keys (k : Nat) (f : α → α) (l : List (Nat × α)) :
    (amodify k f l).map Prod.fst = l.map Prod.fst := by
  induction l with
  | nil => rfl
  | cons p rest ih =>
    obtain ⟨k', v⟩ := p
    by_cases h : k' = k <;> simp [amodify, h, ih]

theorem alookup_eq_none_of_forall (k : Nat) (l : List (Nat × α))
    (h : ∀ p ∈ l, p.1 ≠ k) : alookup k l = none := by
  induction l with
  | nil => rfl
  | cons p rest ih =>
    obtain ⟨k', v⟩ := p
    have hk : k' ≠ k := h (k', v) (List.mem_cons_self _ _)
    simp only [alookup, hk, if_false]
    exact ih (fun q hq => h q (List.mem_cons_of_mem _ hq))

/-- Insert into a `HashSet` modelled as a duplicate-free list (membership only). -/
def setInsert (x : Nat) (l : List Nat) : List Nat :=
  if x ∈ l then l else l ++ [x]

/-- Dependency graph (`queue/dependency.rs`): forward edges `task -> tasks it
depends on`, reverse edges `task -> tasks waiting for it`.  Both `HashMap`s of
`HashSet`s are modelled as insertion-ordered association lists of lists. -/
structure DependencyGraph where
  edges : List (TaskId × List TaskId)
  reverse_edges : List (TaskId × List TaskId)
deriving DecidableEq

namespace DependencyGraph

/-- Constructor `DependencyGraph::new`. -/
def new : DependencyGraph := { edges := [], reverse_edges := [] }

/-- Entry-or-default insertion used by `add_dependency`:
`map.entry(k).or_default().insert(x)`. -/
def entryInsert (k x : Nat) (l : List (Nat × List Nat)) : List (Nat × List Nat) :=
  if (alookup k l).isSome then amodify k (setInsert x) l else l ++ [(k, [x])]

/-- Operation `DependencyGraph::add_dependency`: `task` depends on `depends_on`. -/
def add_dependency (g : DependencyGraph) (task dep : TaskId) : DependencyGraph :=
  { edges := entryInsert task dep g.edges
    reverse_edges := entryInsert dep task g.reverse_edges }

/-- Remove `x` from the set at key `k`; drop the entry when the set becomes
empty (the `Entry::Occupied` branch of `remove_dependency`). -/
def entryRemove (k x : Nat) : List (Nat × List Nat) → List (Nat × List Nat)
  | [] => []
  | (k', s) :: rest =>
    if k' = k then
      let s' := s.erase x
      if s'.isEmpty then rest else (k', s') :: rest
    else (k', s) :: entryRemove k x rest

/-- Operation `DependencyGraph::remove_dependency`. -/
def remove_dependency (g : DependencyGraph) (task dep : TaskId) : DependencyGraph :=
  { edges := entryRemove task dep g.edges
    reverse_edges := entryRemove dep task g.reverse_edges }

/-- Operation `DependencyGraph::get_waiting_tasks`: everyone waiting for `completed_task`. -/
def get_waiting_tasks (g : DependencyGraph) (completed_task : TaskId) : List TaskId :=
  (alookup completed_task g.reverse_edges).getD []

/-- Operation `DependencyGraph::has_dependencies`. -/
def has_dependencies (g : DependencyGraph) (task : TaskId) : Bool :=
  !((alookup task g.edges).getD []).isEmpty

/-- Operation `DependencyGraph::get_dependencies`. -/
def get_dependencies (g : DependencyGraph) (task : TaskId) : List TaskId :=
  (alookup task g.edges).getD []

/-- Helper for `DependencyGraph::follow_cycle`: walk the `prev` chain from `join_point`
until the chain ends or returns to `join_point`, then reverse.  The Rust loop
can diverge if the `prev` chain is circular without passing `join_point`;
the model bounds it by a fuel of `prev.length + 1`, which covers every
terminating Rust execution. -/
def followFrom (g : DependencyGraph) (join : TaskId) (prev : List (TaskId × TaskId)) :
    Nat → TaskId → List TaskId → List TaskId
  | 0, _, acc => acc
  | fuel + 1, current, acc =>
    match alookup current prev with
    | none => acc
    | some p =>
      if p = join then p :: acc
      else followFrom g join prev fuel p (p :: acc)

/-- Operation `DependencyGraph::follow_cycle` (the `cycle` vector is accumulated reversed,
so no final `reverse` is needed in the model). -/
def follow_cycle (g : DependencyGraph) (join : TaskId) (prev : List (TaskId × TaskId)) :
    List TaskId :=
  followFrom g join prev (prev.length + 1) join [join]

/-- One pass of the inner `for dep in self.get_dependencies(node)` loop of
`detect_cycle_from`: records `prev`, returns a cycle on a visited
re-encounter, otherwise marks and stacks the dependency. -/
def stepDeps (g : DependencyGraph) (node : TaskId) :
    List TaskId → List TaskId → List TaskId → List (TaskId × TaskId) →
    Option (List TaskId) × List TaskId × List TaskId × List (TaskId × TaskId)
  | [], visited, stack, prev => (none, visited, stack, prev)
  | d :: ds, visited, stack, prev =>
    let prev' := ainsert d node prev
    if d ∈ visited then (some (g.follow_cycle d prev'), visited, stack, prev')
    else stepDeps g node ds (d :: visited) (d :: stack) prev'

/-- The `while let Some(node) = stack.pop()` loop of `detect_cycle_from`,
with fuel (each loop iteration pops the stack; every push is guarded by a
fresh `visited` insertion, so any terminating Rust run is covered by a
sufficiently large fuel). -/
def detectLoop (g : DependencyGraph) :
    Nat → List TaskId → List TaskId → List (TaskId × TaskId) → Option (List TaskId)
  | 0, _, _, _ => none
  | fuel + 1, stack, visited, prev =>
    match stack with
    | [] => none
    | node :: stackRest =>
      match stepDeps g node (g.get_dependencies node) visited stackRest prev with
      | (some cycle, _, _, _) => some cycle
      | (none, visited', stack', prev') => detectLoop g fuel stack' visited' prev'

/-- Total number of forward edges, used as a fuel bound. -/
def edgeCount (g : DependencyGraph) : Nat :=
  (g.edges.map (fun p => p.2.length)).sum

/-- Operation `DependencyGraph::detect_cycle_from`. -/
def detect_cycle_from (g : DependencyGraph) (start : TaskId) (visited : List TaskId) :
    Option (List TaskId) :=
  detectLoop g (g.edgeCount + 1) [start] (start :: visited) []

/-- Iteration over start points inside `DependencyGraph::detect_cycle`
(return the first cycle found). -/
def detectFromStarts (g : DependencyGraph) : List TaskId → Option (List TaskId)
  | [] => none
  | start :: rest =>
    match g.detect_cycle_from start [] with
    | some cycle => some cycle
    | none => detectFromStarts g rest

/-- Operation `DependencyGraph::detect_cycle`: iterate over all start points
(keys of `reverse_edges` with a non-empty waiting set, in insertion order)
with a fresh `visited` set for each start. -/
def detect_cycle (g : DependencyGraph) : Option (List TaskId) :=
  detectFromStarts g ((g.reverse_edges.filter (fun p => !p.2.isEmpty)).map Prod.fst)

end DependencyGraph


/-- Task state (`queue/state.rs`). -/
inductive TaskState where
  | Queued
  | Running
  | Succeeded
  | RetryScheduled
  | Dead
  | Decomposed
deriving DecidableEq

namespace TaskState

/-- Predicate `TaskState::is_terminal`. -/
def is_terminal : TaskState → Bool
  | Succeeded => true
  | Decomposed => true
  | Dead => true
  | _ => false

/-- Predicate `TaskState::is_runnable`. -/
def is_runnable : TaskState → Bool
  | Queued => true
  | _ => false

end TaskState

/-- Job state (`domain/job.rs`). -/
inductive JobState where
  | Running
  | Completed
  | Failed
  | Cancelled
  | Stuck
deriving DecidableEq

/-- Retry policy (`queue/retry.rs`), with `Duration` and the `f64` multiplier
modelled as exact rationals. -/
structure RetryPolicy where
  base_delay : Rat
  multiplier : Rat
deriving DecidableEq

namespace RetryPolicy

/-- Constructor `RetryPolicy::default_v1` (2 s base delay, multiplier 2.0). -/
def default_v1 : RetryPolicy := { base_delay := 2, multiplier := 2 }

/-- Operation `RetryPolicy::next_delay`: `base_delay * multiplier ^ (attempts
saturating-sub 1)` (`Nat` subtraction is saturating, matching
`attempts.saturating_sub(1)`). -/
def next_delay (p : RetryPolicy) (attempts : Nat) : Rat :=
  p.base_delay * p.multiplier ^ (attempts - 1)

end RetryPolicy

/-- Task envelope (`domain/task.rs`). -/
structure TaskEnvelope where
  task_id : TaskId
  task_type : TaskType
  payload : Json
deriving DecidableEq

/-- Task spec (the variant of `TaskSpec` used by `queue/memory.rs` and the
worker tests, constructed as `TaskSpec::new(title, task_type, payload)`).
Modelled from the spec: the copy of `domain/spec.rs` under `src/` is a stale
draft without `task_type`/`payload`; spec section 6 (JobSpec) lists `title`
and `dependencies_hint`, and every caller passes a title, a task type and a
JSON payload. -/
structure TaskSpec where
  title : Option String
  task_type : TaskType
  payload : Json
  dependencies_hint : Option Json
deriving DecidableEq

/-- Outcome classification (`domain/outcome.rs`). -/
inductive OutcomeKind where
  | Success
  | Failure
  | Blocked
deriving DecidableEq

/-- Artifact (`domain/outcome.rs`); the JSON variant is named `JsonVal` to
avoid clashing with the `Json` payload type. -/
inductive Artifact where
  | Stdout (s : String)
  | Stderr (s : String)
  | FilePath (s : String)
  | Url (s : String)
  | JsonVal (v : Json)
deriving DecidableEq

/-- Outcome (`domain/outcome.rs`). -/
structure Outcome where
  kind : OutcomeKind
  artifacts : List Artifact
  reason : Option String
  retry_hint : Option Json
  alternatives : List Json
  child_tasks : Option (List TaskSpec)
deriving DecidableEq

namespace Outcome

/-- Constructor `Outcome::success`. -/
def success : Outcome :=
  { kind := .Success, artifacts := [], reason := none, retry_hint := none,
    alternatives := [], child_tasks := none }

/-- Constructor `Outcome::failure`. -/
def failure (reason : String) : Outcome :=
  { kind := .Failure, artifacts := [], reason := some reason, retry_hint := none,
    alternatives := [], child_tasks := none }

end Outcome

/-- Budget (`domain/spec.rs`). -/
structure Budget where
  max_attempts_per_task : Nat
  max_total_attempts : Option Nat
  deadline_ms : Option Nat
  max_no_progress_steps : Option Nat
deriving DecidableEq

/-- Default budget (`Budget::default`). -/
def Budget.default_v1 : Budget :=
  { max_attempts_per_task := 5, max_total_attempts := none, deadline_ms := none,
    max_no_progress_steps := some 50 }

/-- Job spec (`domain/spec.rs`). -/
structure JobSpec where
  tasks : List TaskSpec
  budget : Budget
deriving DecidableEq

/-- Constructor `JobSpec::new(tasks)` with the default budget (used by the
tests).  Modelled from the spec: the constructor itself is not in the stale
`domain/spec.rs` draft; missing budgets take the defaults of section 6. -/
def JobSpec.new (tasks : List TaskSpec) : JobSpec :=
  { tasks := tasks, budget := Budget.default_v1 }

/-- Decision (`domain/decision.rs` declares `Retry` and `MarkDead`).
Modelled from the spec: the `Decompose` variant matched by
`InMemoryLease::complete` in `queue/memory.rs` is absent from the
`decision.rs` draft under `src/`; spec section 4.2 describes
`Decompose{child_specs, reason}`. -/
inductive Decision where
  | Retry (delay : Rat) (reason : String)
  | MarkDead (reason : String)
  | Decompose (child_tasks : List TaskSpec) (reason : String)
deriving DecidableEq

namespace Decision

/-- Whether the decision is a `Retry`. -/
def isRetry : Decision → Bool
  | Retry _ _ => true
  | _ => false

/-- Whether the decision is a `MarkDead`. -/
def isMarkDead : Decision → Bool
  | MarkDead _ => true
  | _ => false

/-- Whether the decision is a `Decompose`. -/
def isDecompose : Decision → Bool
  | Decompose _ _ => true
  | _ => false

/-- Delay carried by a `Retry` decision. -/
def delayOf : Decision → Option Rat
  | Retry delay _ => some delay
  | _ => none

end Decision

/-- Task record (`queue/record.rs`).  The fields `depends_on`,
`parent_task_id` and `child_task_ids` are modelled from the spec: the copy of
`record.rs` under `src/` lacks them, but `queue/memory.rs` reads and writes
them and spec section 3 (TaskRecord) lists an optional parent task id, child
task ids and a list of unresolved dependency task ids. -/
structure TaskRecord where
  envelope : TaskEnvelope
  state : TaskState
  job_id : Option JobId
  attempts : Nat
  max_attempts : Nat
  last_error : Option String
  next_run_at : Option Time
  created_at : Time
  updated_at : Time
  depends_on : List TaskId
  parent_task_id : Option TaskId
  child_task_ids : List TaskId
deriving DecidableEq

namespace TaskRecord

/-- Constructor `TaskRecord::new` (state Queued, zero attempts); `now` models
the `Instant::now()` call inside the constructor. -/
def new (now : Time) (envelope : TaskEnvelope) (max_attempts : Nat) : TaskRecord :=
  { envelope := envelope, state := .Queued, job_id := none, attempts := 0,
    max_attempts := max_attempts, last_error := none, next_run_at := none,
    created_at := now, updated_at := now, depends_on := [], parent_task_id := none,
    child_task_ids := [] }

/-- Constructor `TaskRecord::new_with_job`. -/
def new_with_job (now : Time) (envelope : TaskEnvelope) (max_attempts : Nat)
    (job_id : JobId) : TaskRecord :=
  { new now envelope max_attempts with job_id := some job_id }

/-- Constructor `TaskRecord::new_child` used by `add_child_tasks`.  Modelled
from the spec: children are linked to the parent job and record
`parent_task_id` as a back-reference (spec sections 3 and 4.2). -/
def new_child (now : Time) (envelope : TaskEnvelope) (max_attempts : Nat)
    (job_id : JobId) (parent : TaskId) : TaskRecord :=
  { new now envelope max_attempts with job_id := some job_id, parent_task_id := some parent }

/-- Operation `TaskRecord::start_attempt`: mark Running, increment `attempts`. -/
def start_attempt (now : Time) (r : TaskRecord) : TaskRecord :=
  { r with state := .Running, attempts := r.attempts + 1, updated_at := now }

/-- Operation `TaskRecord::mark_succeeded`. -/
def mark_succeeded (now : Time) (r : TaskRecord) : TaskRecord :=
  { r with state := .Succeeded, updated_at := now }

/-- Operation `TaskRecord::mark_dead`. -/
def mark_dead (now : Time) (error : String) (r : TaskRecord) : TaskRecord :=
  { r with state := .Dead, last_error := some error, updated_at := now }

/-- Operation `TaskRecord::schedule_retry`. -/
def schedule_retry (now : Time) (next_run_at : Time) (error : String)
    (r : TaskRecord) : TaskRecord :=
  { r with
      state := .RetryScheduled,
      next_run_at := some next_run_at,
      last_error := some error,
      updated_at := now }

/-- Operation `TaskRecord::requeue`: RetryScheduled back to Queued. -/
def requeue (now : Time) (r : TaskRecord) : TaskRecord :=
  { r with state := .Queued, next_run_at := none, updated_at := now }

/-- Operation `TaskRecord::add_dependency`.  Modelled from the spec: appends
to the unresolved dependency list. -/
def add_dependency (t : TaskId) (r : TaskRecord) : TaskRecord :=
  { r with depends_on := r.depends_on ++ [t] }

/-- Operation `TaskRecord::remove_dependency`.  Modelled from the spec:
removes the resolved dependency from the list. -/
def remove_dependency (t : TaskId) (r : TaskRecord) : TaskRecord :=
  { r with depends_on := r.depends_on.erase t }

/-- Operation `TaskRecord::has_dependencies`.  Modelled from the spec. -/
def has_dependencies (r : TaskRecord) : Bool :=
  !r.depends_on.isEmpty

end TaskRecord

/-- Render a rational delay for a reason string (abstracts Rust Debug
formatting of `Duration`). -/
def fmtRat (q : Rat) : String :=
  toString q.num ++ "/" ++ toString q.den

/-- Default decider (`domain/decision.rs`, `DefaultDecider`). -/
structure DefaultDecider where
  retry_policy : RetryPolicy
deriving DecidableEq

namespace DefaultDecider

/-- Constructor `DefaultDecider::default_v1`. -/
def default_v1 : DefaultDecider := { retry_policy := RetryPolicy.default_v1 }

/-- Operation `DefaultDecider::decide` (`domain/decision.rs` lines 75-97):
MarkDead when `attempts >= max_attempts`, otherwise Retry with
`next_delay(attempts)`.  The `outcome` argument is ignored by the source
(bound as `_outcome`). -/
def decide (d : DefaultDecider) (task : TaskRecord) (_outcome : Outcome) : Decision :=
  if task.max_attempts ≤ task.attempts then
    .MarkDead ("Max attempts reached: " ++ toString task.attempts ++ "/" ++
      toString task.max_attempts)
  else
    .Retry (d.retry_policy.next_delay task.attempts)
      ("Retry attempt " ++ toString (task.attempts + 1) ++ "/" ++
        toString task.max_attempts ++ " after " ++
        fmtRat (d.retry_policy.next_delay task.attempts))

end DefaultDecider

/-- Job record (`domain/job.rs`). -/
structure JobRecord where
  job_id : JobId
  spec : JobSpec
  state : JobState
  task_ids : List TaskId
  created_at : Time
  updated_at : Time
  deadline_at : Option Time
deriving DecidableEq

namespace JobRecord

/-- Constructor `JobRecord::new`: state Running, deadline derived from the
budget (milliseconds converted to the rational seconds axis). -/
def new (now : Time) (job_id : JobId) (spec : JobSpec) : JobRecord :=
  { job_id := job_id, spec := spec, state := .Running, task_ids := [],
    created_at := now, updated_at := now,
    deadline_at := spec.budget.deadline_ms.map (fun ms => now + (ms : Rat) / 1000) }

/-- Operation `JobRecord::add_task`. -/
def add_task (now : Time) (task_id : TaskId) (j : JobRecord) : JobRecord :=
  { j with task_ids := j.task_ids ++ [task_id], updated_at := now }

/-- Operation `JobRecord::mark_cancelled` (unconditional). -/
def mark_cancelled (now : Time) (j : JobRecord) : JobRecord :=
  { j with state := .Cancelled, updated_at := now }

/-- Operation `JobRecord::mark_stuck` (unconditional). -/
def mark_stuck (now : Time) (j : JobRecord) : JobRecord :=
  { j with state := .Stuck, updated_at := now }

/-- Operation `JobRecord::is_deadline_exceeded`: `Instant::now() >= deadline`. -/
def is_deadline_exceeded (now : Time) (j : JobRecord) : Bool :=
  match j.deadline_at with
  | some deadline => decide (deadline ≤ now)
  | none => false

end JobRecord

/-- Attempt record (`domain/attempt.rs`). -/
structure AttemptRecord where
  attempt_id : AttemptId
  task_id : TaskId
  action : Json
  observation : List Artifact
  outcome : Outcome
  started_at : Time
  completed_at : Time
deriving DecidableEq

/-- Constructor `AttemptRecord::new`.  Modelled from the spec: the
constructor body in `src/domain/attempt.rs` is an unimplemented stub whose
doc says to fill the fields and set both timestamps to now. -/
def AttemptRecord.new (now : Time) (attempt_id : AttemptId) (task_id : TaskId)
    (action : Json) (observation : List Artifact) (outcome : Outcome) : AttemptRecord :=
  { attempt_id := attempt_id, task_id := task_id, action := action,
    observation := observation, outcome := outcome, started_at := now,
    completed_at := now }

/-- Decision record (`domain/attempt.rs`); `trigger` and `context` are
`serde_json::Value`s whose contents the queue never reads, modelled by the
abstract `Json`. -/
structure DecisionRecord where
  task_id : TaskId
  trigger : Json
  policy : String
  decision : String
  context : Option Json
  decided_at : Time
deriving DecidableEq

/-- Constructor `DecisionRecord::new`.  Modelled from the spec: the
constructor body in `src/domain/attempt.rs` is an unimplemented stub whose
doc says to fill the fields and set `decided_at` to now. -/
def DecisionRecord.new (now : Time) (task_id : TaskId) (trigger : Json)
    (policy : String) (decision : String) (context : Option Json) : DecisionRecord :=
  { task_id := task_id, trigger := trigger, policy := policy, decision := decision,
    context := context, decided_at := now }


/-- Scheduled heap entry (`ScheduledTask` in `queue/memory.rs`). -/
structure Sched where
  next_run_at : Time
  task_id : TaskId
deriving DecidableEq

/-- In-memory queue state (`InMemoryQueueState` in `queue/memory.rs`).
The `BinaryHeap` is modelled as a plain list from which
`promote_scheduled_tasks` extracts minimal elements. -/
structure QState where
  jobs : List (JobId × JobRecord)
  records : List (TaskId × TaskRecord)
  ready : List TaskId
  attempts : List (AttemptId × AttemptRecord)
  decisions : List DecisionRecord
  scheduled : List Sched
  dependency_graph : DependencyGraph
  next_job_id : Nat
  next_task_id : Nat
  next_attempt_id : Nat
  retry_policy : RetryPolicy
deriving DecidableEq

/-- Lease handed to a worker (`InMemoryLease`): task id, a clone of the
envelope, and a clone of the retry policy (used only by `fail`).  The `Arc`
handles back into the shared state are implicit in the model. -/
structure Lease where
  task_id : TaskId
  envelope : TaskEnvelope
  retry_policy : RetryPolicy
deriving DecidableEq

namespace QState

/-- Constructor `InMemoryQueueState::new`. -/
def new (retry_policy : RetryPolicy) : QState :=
  { jobs := [], records := [], ready := [], attempts := [], decisions := []
    scheduled := [], dependency_graph := DependencyGraph.new
    next_job_id := 1, next_task_id := 1, next_attempt_id := 1
    retry_policy := retry_policy }

/-- Allocator `allocate_job_id`. -/
def allocate_job_id (s : QState) : JobId × QState :=
  (s.next_job_id, { s with next_job_id := s.next_job_id + 1 })

/-- Allocator `allocate_task_id`. -/
def allocate_task_id (s : QState) : TaskId × QState :=
  (s.next_task_id, { s with next_task_id := s.next_task_id + 1 })

/-- Allocator `allocate_attempt_id`. -/
def allocate_attempt_id (s : QState) : AttemptId × QState :=
  (s.next_attempt_id, { s with next_attempt_id := s.next_attempt_id + 1 })

/-- Extract the first entry with minimal `next_run_at` (deterministic model
of `BinaryHeap::peek`/`pop`; ties are broken by list position, where the
Rust heap leaves tie order unspecified). -/
def popMinSched : List Sched → Option (Sched × List Sched)
  | [] => none
  | e :: rest =>
    match popMinSched rest with
    | none => some (e, rest)
    | some (m, rest') =>
      if e.next_run_at ≤ m.next_run_at then some (e, rest) else some (m, e :: rest')

theorem popMinSched_length (l : List Sched) (e : Sched) (rest : List Sched)
    (h : popMinSched l = some (e, rest)) : rest.length + 1 = l.length := by
  induction l generalizing e rest with
  | nil => simp [popMinSched] at h
  | cons a as ih =>
    simp only [popMinSched] at h
    cases hm : popMinSched as with
    | none =>
      rw [hm] at h
      have h' : some (a, as) = some (e, rest) := h
      simp only [Option.some.injEq, Prod.mk.injEq] at h'
      obtain ⟨-, hrest⟩ := h'
      subst hrest
      rfl
    | some p =>
      obtain ⟨m, rest'⟩ := p
      rw [hm] at h
      have h' : (if a.next_run_at ≤ m.next_run_at then some (a, as)
          else some (m, a :: rest')) = some (e, rest) := h
      by_cases hle : a.next_run_at ≤ m.next_run_at
      · rw [if_pos hle] at h'
        simp only [Option.some.injEq, Prod.mk.injEq] at h'
        obtain ⟨-, hrest⟩ := h'
        subst hrest
        rfl
      · rw [if_neg hle] at h'
        simp only [Option.some.injEq, Prod.mk.injEq] at h'
        obtain ⟨-, hrest⟩ := h'
        subst hrest
        have hlen := ih m rest' hm
        simp only [List.length_cons]
        omega

/-- Handling of one popped scheduled entry inside `promote_scheduled_tasks`:
drop the entry from the heap; when its record is still RetryScheduled,
requeue the record and push the id to ready. -/
def promoteStep (now : Time) (entry : Sched) (rest : List Sched) (s : QState) : QState :=
  match alookup entry.task_id s.records with
  | some record =>
    if record.state = TaskState.RetryScheduled then
      { s with
          scheduled := rest,
          records := amodify entry.task_id (TaskRecord.requeue now) s.records,
          ready := s.ready ++ [entry.task_id] }
    else { s with scheduled := rest }
  | none => { s with scheduled := rest }

/-- Loop body of `promote_scheduled_tasks` with explicit fuel (the heap only
shrinks, so `scheduled.length` iterations suffice).  Pops every entry due at
`now`; stops at the first future entry (heap order). -/
def promoteLoop : Nat → Time → QState → QState
  | 0, _, s => s
  | fuel + 1, now, s =>
    match popMinSched s.scheduled with
    | none => s
    | some (entry, rest) =>
      if now < entry.next_run_at then s
      else promoteLoop fuel now (promoteStep now entry rest s)

/-- Operation `promote_scheduled_tasks` (`queue/memory.rs`). -/
def promote_scheduled_tasks (now : Time) (s : QState) : QState :=
  promoteLoop s.scheduled.length now s

/-- Operation `InMemoryQueue::enqueue`: allocate a task id, insert a Queued
record with the hard-coded `max_attempts = 5` (TODO in the source), push to
ready. -/
def enqueue (envelope : TaskEnvelope) (now : Time) (s : QState) : QState :=
  let (task_id, s1) := s.allocate_task_id
  let record := TaskRecord.new now envelope 5
  { s1 with
      records := ainsert task_id record s1.records,
      ready := s1.ready ++ [task_id] }

/-- Operation `create_job`. -/
def create_job (spec : JobSpec) (now : Time) (s : QState) : JobId × QState :=
  let (job_id, s1) := s.allocate_job_id
  (job_id, { s1 with jobs := ainsert job_id (JobRecord.new now job_id spec) s1.jobs })

/-- The `for task_spec in &spec.tasks` loop of `create_job_with_tasks`:
allocate an id, insert a Queued record linked to the job, push to ready, and
append the id to the job's member list.  Note that declared dependencies
(`dependencies_hint`) are never read and the dependency graph is never
touched. -/
def addJobTasks (job_id : JobId) (max_attempts : Nat) (now : Time) :
    List TaskSpec → QState → QState
  | [], s => s
  | ts :: rest, s =>
    let (task_id, s1) := s.allocate_task_id
    let envelope : TaskEnvelope :=
      { task_id := task_id, task_type := ts.task_type, payload := ts.payload }
    let record := TaskRecord.new_with_job now envelope max_attempts job_id
    let s2 :=
      { s1 with
          records := ainsert task_id record s1.records,
          ready := s1.ready ++ [task_id],
          jobs := amodify job_id (JobRecord.add_task now task_id) s1.jobs }
    addJobTasks job_id max_attempts now rest s2

/-- Operation `create_job_with_tasks` (`queue/memory.rs` lines 166-183). -/
def create_job_with_tasks (spec : JobSpec) (now : Time) (s : QState) : JobId × QState :=
  let (job_id, s1) := s.create_job spec now
  (job_id, addJobTasks job_id spec.budget.max_attempts_per_task now spec.tasks s1)

/-- Operation `InMemoryQueue::submit_job` (`queue/memory.rs` lines 286-293):
always succeeds with the new job id (the notify is irrelevant to state). -/
def submit_job (spec : JobSpec) (now : Time) (s : QState) : JobId × QState :=
  s.create_job_with_tasks spec now

/-- Operation `InMemoryQueue::cancel_job` (`queue/memory.rs` lines 341-354):
`none` models the `Job not found` error; otherwise `mark_cancelled` is
applied unconditionally. -/
def cancel_job (job_id : JobId) (now : Time) (s : QState) : Option QState :=
  match alookup job_id s.jobs with
  | none => none
  | some _ => some { s with jobs := amodify job_id (JobRecord.mark_cancelled now) s.jobs }

/-- Try to lease the popped task: `start_attempt` and hand out the lease.
When the record is missing the Rust loop falls through to the wait branch
with the popped id discarded; the model returns the state with no lease. -/
def tryLease (t : TaskId) (now : Time) (s : QState) : QState × Option Lease :=
  match alookup t s.records with
  | some record =>
    ({ s with records := amodify t (TaskRecord.start_attempt now) s.records },
      some { task_id := t, envelope := record.envelope, retry_policy := s.retry_policy })
  | none => (s, none)

/-- The `loop` of `InMemoryQueue::lease` (`queue/memory.rs` lines 220-277)
with explicit fuel.  Each iteration re-runs `promote_scheduled_tasks`, pops
the ready queue, skips tasks of deadline-exceeded jobs (marking the job
Stuck) and of Cancelled jobs, and otherwise leases.  An empty ready queue
models the blocking wait as `none`. -/
def leaseLoop : Nat → Time → QState → QState × Option Lease
  | 0, _, s => (s, none)
  | fuel + 1, now, s =>
    let s1 := s.promote_scheduled_tasks now
    match s1.ready with
    | [] => (s1, none)
    | t :: rest =>
      match (alookup t s1.records).bind (fun r => r.job_id) with
      | some job_id =>
        match alookup job_id s1.jobs with
        | some job =>
          if job.is_deadline_exceeded now then
            leaseLoop fuel now
              { s1 with
                  ready := rest,
                  jobs := amodify job_id (JobRecord.mark_stuck now) s1.jobs }
          else if job.state = JobState.Cancelled then
            leaseLoop fuel now { s1 with ready := rest }
          else
            tryLease t now { s1 with ready := rest }
        | none => tryLease t now { s1 with ready := rest }
      | none => tryLease t now { s1 with ready := rest }

/-- Fuel bound for `leaseLoop`: every iteration consumes one ready entry and
promotion can move each scheduled entry into ready at most once. -/
def leaseFuel (s : QState) : Nat :=
  s.ready.length + s.scheduled.length + 1

/-- Operation `InMemoryQueue::lease`, as a single non-blocking pass (`none`
means the Rust call would wait for a notification before retrying). -/
def lease (now : Time) (s : QState) : QState × Option Lease :=
  leaseLoop (leaseFuel s) now s

/-- Phase 2/3 of `add_child_tasks`: create each child record (Queued,
inheriting `max_attempts` and the parent's job id, recording
`parent_task_id`), insert it and push its id to ready. -/
def addChildRecords (job_id : JobId) (parent : TaskId) (max_attempts : Nat)
    (now : Time) : List (TaskSpec × TaskId) → QState → QState
  | [], s => s
  | (spec, task_id) :: rest, s =>
    let envelope : TaskEnvelope :=
      { task_id := task_id, task_type := spec.task_type, payload := spec.payload }
    let record := TaskRecord.new_child now envelope max_attempts job_id parent
    let s1 :=
      { s with
          records := ainsert task_id record s.records,
          ready := s.ready ++ [task_id] }
    addChildRecords job_id parent max_attempts now rest s1

/-- Operation `InMemoryLease::add_child_tasks` (`queue/memory.rs`): fails
(`none`) when the parent record is missing or has no job; otherwise
allocates sequential child ids, inserts the child records, pushes them to
ready and sets the parent's `child_task_ids`. -/
def add_child_tasks (l : Lease) (child_specs : List TaskSpec) (now : Time)
    (s : QState) : Option (List TaskId × QState) :=
  match alookup l.task_id s.records with
  | none => none
  | some parent =>
    match parent.job_id with
    | none => none
    | some parent_job_id =>
      let task_ids := (List.range child_specs.length).map (fun i => s.next_task_id + i)
      let s1 := { s with next_task_id := s.next_task_id + child_specs.length }
      let s2 := addChildRecords parent_job_id l.task_id parent.max_attempts now
        (child_specs.zip task_ids) s1
      let s3 :=
        { s2 with
            records := amodify l.task_id
              (fun p => { p with child_task_ids := task_ids }) s2.records }
      some (task_ids, s3)

/-- Operation `InMemoryLease::complete` (`queue/memory.rs` lines 445-543):
append an attempt record, then apply the decision.  The `serde_json` trigger
and context values are abstracted (the queue never reads them); a failing
`add_child_tasks` leaves the already-appended attempt record in place, as in
the source. -/
def complete (l : Lease) (outcome : Outcome) (decision : Decision) (now : Time)
    (s : QState) : QState :=
  let (attempt_id, s1) := s.allocate_attempt_id
  let arec := AttemptRecord.new now attempt_id l.task_id l.envelope.payload
    outcome.artifacts outcome
  let s2 := { s1 with attempts := ainsert attempt_id arec s1.attempts }
  match decision with
  | .Retry delay reason =>
    let next_run_at := now + delay
    let drec := DecisionRecord.new now l.task_id attempt_id "retry_policy"
      "schedule_retry" (some 0)
    (match alookup l.task_id s2.records with
     | some _ =>
       { s2 with
           records := amodify l.task_id
             (TaskRecord.schedule_retry now next_run_at reason) s2.records,
           decisions := s2.decisions ++ [drec],
           scheduled := s2.scheduled ++ [{ next_run_at := next_run_at, task_id := l.task_id }] }
     | none => s2)
  | .MarkDead reason =>
    let drec := DecisionRecord.new now l.task_id attempt_id "retry_policy"
      "mark_dead" none
    (match alookup l.task_id s2.records with
     | some _ =>
       { s2 with
           records := amodify l.task_id (TaskRecord.mark_dead now reason) s2.records,
           decisions := s2.decisions ++ [drec] }
     | none => s2)
  | .Decompose child_tasks _reason =>
    match add_child_tasks l child_tasks now s2 with
    | none => s2
    | some (_child_ids, s3) =>
      let drec := DecisionRecord.new now l.task_id attempt_id "decomposition"
        "decompose" (some 0)
      (match alookup l.task_id s3.records with
       | some _ =>
         { s3 with
             records := amodify l.task_id
               (fun r => { r with state := TaskState.Decomposed }) s3.records,
             decisions := s3.decisions ++ [drec] }
       | none => s3)

/-- One iteration of the `for waiting_task_id in waiting_tasks` loop of
`InMemoryLease::ack`: remove the resolved dependency from the waiter's
record, push the waiter to ready exactly when it then has no dependencies
and is Queued, and remove the graph edge. -/
def ackWaiterStep (completed w : TaskId) (s : QState) : QState :=
  let s1 :=
    match alookup w s.records with
    | some task =>
      let task' := task.remove_dependency completed
      let su := { s with records := amodify w (fun _ => task') s.records }
      if task'.has_dependencies = false ∧ task'.state = TaskState.Queued then
        { su with ready := su.ready ++ [w] }
      else su
    | none => s
  { s1 with dependency_graph := s1.dependency_graph.remove_dependency w completed }

/-- The full `for waiting_task_id in waiting_tasks` loop of
`InMemoryLease::ack`, iterating `ackWaiterStep`. -/
def resolveWaiters (completed : TaskId) : List TaskId → QState → QState
  | [], s => s
  | w :: ws, s => resolveWaiters completed ws (ackWaiterStep completed w s)

/-- Operation `InMemoryLease::ack` (`queue/memory.rs` lines 605-642): append
an attempt record with a Success outcome and empty observation, mark the
task Succeeded, then resolve dependents. -/
def ack (l : Lease) (now : Time) (s : QState) : QState :=
  let (attempt_id, s1) := s.allocate_attempt_id
  let arec := AttemptRecord.new now attempt_id l.task_id l.envelope.payload []
    Outcome.success
  let s2 := { s1 with attempts := ainsert attempt_id arec s1.attempts }
  let s3 := { s2 with records := amodify l.task_id (TaskRecord.mark_succeeded now) s2.records }
  resolveWaiters l.task_id (s3.dependency_graph.get_waiting_tasks l.task_id) s3

/-- Operation `InMemoryLease::fail` (`queue/memory.rs` lines 644-710):
append a Failure attempt record; when the record exists, mark dead at
`attempts >= max_attempts`, else schedule a retry via the lease's
`retry_policy`. -/
def fail (l : Lease) (error : String) (now : Time) (s : QState) : QState :=
  let (attempt_id, s1) := s.allocate_attempt_id
  let arec := AttemptRecord.new now attempt_id l.task_id l.envelope.payload
    [Artifact.Stdout error] (Outcome.failure error)
  let s2 := { s1 with attempts := ainsert attempt_id arec s1.attempts }
  match alookup l.task_id s2.records with
  | none => s2
  | some record =>
    if record.max_attempts ≤ record.attempts then
      let drec := DecisionRecord.new now l.task_id 0 "retry_policy" "mark_dead" none
      { s2 with
          records := amodify l.task_id (TaskRecord.mark_dead now error) s2.records,
          decisions := s2.decisions ++ [drec] }
    else
      let delay := l.retry_policy.next_delay record.attempts
      let next_run_at := now + delay
      let drec := DecisionRecord.new now l.task_id 0 "retry_policy" "schedule_retry" (some 0)
      { s2 with
          records := amodify l.task_id
            (TaskRecord.schedule_retry now next_run_at error) s2.records,
          decisions := s2.decisions ++ [drec],
          scheduled := s2.scheduled ++ [{ next_run_at := next_run_at, task_id := l.task_id }] }

end QState

/-- A configuration of the running system: the shared queue state plus the
outstanding leases (Rust's affine `Box<dyn TaskLease>` values, each consumed
by exactly one `complete`/`ack`/`fail`). -/
structure Config where
  state : QState
  leases : List Lease
deriving DecidableEq

/-- Initial configuration (`InMemoryQueue::new`). -/
def initConfig (p : RetryPolicy) : Config :=
  { state := QState.new p, leases := [] }

/-- One step of the queue's public interface.  Times are arbitrary at each
step (the model does not constrain the clock).  `complete`, `ack` and `fail`
consume an outstanding lease. -/
inductive Step : Config → Config → Prop where
  | enqueue (env : TaskEnvelope) (now : Time) (c : Config) :
      Step c { c with state := c.state.enqueue env now }
  | submit (spec : JobSpec) (now : Time) (c : Config) :
      Step c { c with state := (c.state.submit_job spec now).2 }
  | cancel (job_id : JobId) (now : Time) (c : Config) (s' : QState) :
      c.state.cancel_job job_id now = some s' →
      Step c { c with state := s' }
  | lease (now : Time) (c : Config) (s' : QState) (l : Lease) :
      c.state.lease now = (s', some l) →
      Step c { state := s', leases := l :: c.leases }
  | leaseNone (now : Time) (c : Config) (s' : QState) :
      c.state.lease now = (s', none) →
      Step c { c with state := s' }
  | complete (l : Lease) (outcome : Outcome) (decision : Decision) (now : Time) (c : Config) :
      l ∈ c.leases →
      Step c { state := c.state.complete l outcome decision now, leases := c.leases.erase l }
  | ack (l : Lease) (now : Time) (c : Config) :
      l ∈ c.leases →
      Step c { state := c.state.ack l now, leases := c.leases.erase l }
  | fail (l : Lease) (error : String) (now : Time) (c : Config) :
      l ∈ c.leases →
      Step c { state := c.state.fail l error now, leases := c.leases.erase l }

/-- Configurations reachable from the fresh queue through the public
operations. -/
def Reachable (p : RetryPolicy) (c : Config) : Prop :=
  Relation.ReflTransGen Step (initConfig p) c


/-! ## Claim C1: cycle detection -/

theorem alookup_mem {k : Nat} {v : α} {l : List (Nat × α)}
    (h : alookup k l = some v) : (k, v) ∈ l := by
  induction l with
  | nil => simp [alookup] at h
  | cons p rest ih =>
    obtain ⟨k', v'⟩ := p
    by_cases hk : k' = k
    · subst hk
      have h' : v' = v := by simpa [alookup] using h
      subst h'
      exact List.mem_cons_self _ _
    · simp only [alookup, if_neg hk] at h
      exact List.mem_cons_of_mem _ (ih h)

/-- Edge relation of the dependency graph: `u` depends on `v`. -/
def EdgeOf (g : DependencyGraph) (u v : TaskId) : Prop :=
  v ∈ g.get_dependencies u

/-- A ranking certifying acyclicity: every forward edge strictly increases
the rank. -/
def RespectsRank (g : DependencyGraph) (rank : TaskId → Nat) : Prop :=
  ∀ p ∈ g.edges, ∀ v ∈ p.2, rank p.1 < rank v

theorem rank_lt_of_edge {g : DependencyGraph} {rank : TaskId → Nat}
    (h : RespectsRank g rank) {u v : TaskId} (he : EdgeOf g u v) : rank u < rank v := by
  unfold EdgeOf DependencyGraph.get_dependencies at he
  cases hl : alookup u g.edges with
  | none => simp [hl] at he
  | some deps =>
    rw [hl] at he
    exact h (u, deps) (alookup_mem hl) v he

/-- A cycle through the graph: a path of length at least 2 along forward
edges whose first and last node coincide. -/
def IsCyclePath (g : DependencyGraph) (p : List TaskId) : Prop :=
  2 ≤ p.length ∧ List.Chain' (EdgeOf g) p ∧ p.head? = p.getLast?

theorem rank_lt_of_chain {g : DependencyGraph} {rank : TaskId → Nat}
    (h : RespectsRank g rank) :
    ∀ (l : List TaskId) (u w : TaskId), List.Chain' (EdgeOf g) (u :: l) →
      (u :: l).getLast? = some w → l ≠ [] → rank u < rank w := by
  intro l
  induction l with
  | nil => intro u w _ _ hne; exact absurd rfl hne
  | cons v l' ih =>
    intro u w hchain hlast _
    have hedge : EdgeOf g u v := (List.chain'_cons.mp hchain).1
    have hchain' : List.Chain' (EdgeOf g) (v :: l') := (List.chain'_cons.mp hchain).2
    have huv : rank u < rank v := rank_lt_of_edge h hedge
    cases hl' : l' with
    | nil =>
      subst hl'
      have hwv : v = w := by simpa using hlast
      rw [← hwv]
      exact huv
    | cons a as =>
      have hlast' : (v :: l').getLast? = some w := by
        rw [hl'] at hlast ⊢
        simpa using hlast
      have hvw : rank v < rank w := by
        apply ih v w (hl' ▸ hchain') (hl' ▸ hlast')
        simp [hl']
      exact lt_trans huv hvw

theorem no_cycle_of_respects_rank {g : DependencyGraph} {rank : TaskId → Nat}
    (h : RespectsRank g rank) (p : List TaskId) : ¬ IsCyclePath g p := by
  rintro ⟨hlen, hchain, hcycle⟩
  cases p with
  | nil => simp at hlen
  | cons u l =>
    cases l with
    | nil => simp at hlen
    | cons v l' =>
      have hne : (v :: l') ≠ [] := by simp
      have hhead : (u :: v :: l').head? = some u := rfl
      rw [hhead] at hcycle
      have hlt := rank_lt_of_chain h (v :: l') u u hchain hcycle.symm hne
      exact lt_irrefl _ hlt

/-- The failing input for C1: the acyclic graph with dependencies
`0 -> 1`, `1 -> 2`, `1 -> 3`, `2 -> 4`, `3 -> 4` (a diamond `1,2,3,4`
whose apex `1` is itself depended on by `0`). -/
def c1Graph : DependencyGraph :=
  ((((DependencyGraph.new.add_dependency 0 1).add_dependency 1 2).add_dependency
    1 3).add_dependency 2 4).add_dependency 3 4

/-- Claim C1 (code bug).  The claim says: acyclic graph implies
`detect_cycle` returns none, and a graph with a cycle yields a path whose
first and last element coincide.  On the concrete acyclic graph `c1Graph`
(certified acyclic by the identity ranking, hence containing no cycle
path at all), `detect_cycle` nevertheless returns `some [1, 2, 4]` - a
false positive whose path does not even close.  This contradicts the
function's own documentation ("Returns the first cycle found, or None if
the graph is acyclic (DAG)") and the intent of its DAG regression tests. -/
theorem C1_detect_cycle_false_positive_on_dag :
    RespectsRank c1Graph (fun n => n) ∧
    (∀ p : List TaskId, ¬ IsCyclePath c1Graph p) ∧
    c1Graph.detect_cycle = some [1, 2, 4] ∧
    ([1, 2, 4] : List TaskId).head? ≠ ([1, 2, 4] : List TaskId).getLast? := by
  have hrank : RespectsRank c1Graph (fun n => n) := by
    unfold RespectsRank
    decide
  exact ⟨hrank, fun p => no_cycle_of_respects_rank hrank p, by decide, by decide⟩


/-! ## Claim C2: cycle rejection at submission -/

/-- Error type of `src/error.rs` (`WeaverError`): note there is no
`DependencyCycle` variant anywhere in the sources. -/
inductive WeaverError where
  | HandlerNotFound (task_type : TaskType)
  | DuplicateHandler (task_type : TaskType)
  | Other (message : String)
deriving DecidableEq

/-- A job spec whose two tasks declare mutually cyclic dependencies through
their `dependencies_hint`s (the hints are arbitrary). -/
def c2Spec (h1 h2 : Option Json) : JobSpec :=
  JobSpec.new
    [{ title := some ("A"), task_type := "a", payload := 0, dependencies_hint := h1 },
     { title := some ("B"), task_type := "b", payload := 1, dependencies_hint := h2 }]

/-- Claim C2 (code bug).  The claim says a submission whose declared task
dependencies contain a cycle is rejected with `DependencyCycle` and creates
no task records.  In the code, `submit_job` / `create_job_with_tasks` never
reads the declared dependencies, never consults the dependency graph or
`detect_cycle`, and cannot fail: for every pair of dependency hints (in
particular mutually cyclic ones `A -> B`, `B -> A`), the submission returns
job id 1, both task records are created in state Queued, both ids are pushed
to the ready queue, and the dependency graph stays empty.  (There is not
even a `DependencyCycle` variant in `WeaverError`.) -/
theorem C2_submit_job_never_rejects_cycles (p : RetryPolicy) (h1 h2 : Option Json)
    (now : Time) :
    (((QState.new p).submit_job (c2Spec h1 h2) now).1 = 1) ∧
    (((QState.new p).submit_job (c2Spec h1 h2) now).2.records.map Prod.fst = [1, 2]) ∧
    (((QState.new p).submit_job (c2Spec h1 h2) now).2.ready = [1, 2]) ∧
    ((alookup 1 ((QState.new p).submit_job (c2Spec h1 h2) now).2.records).map
      TaskRecord.state = some TaskState.Queued) ∧
    ((alookup 2 ((QState.new p).submit_job (c2Spec h1 h2) now).2.records).map
      TaskRecord.state = some TaskState.Queued) ∧
    (((QState.new p).submit_job (c2Spec h1 h2) now).2.dependency_graph =
      DependencyGraph.new) :=
  ⟨rfl, rfl, rfl, rfl, rfl, rfl⟩

/-! ## Claim C3: the default decider -/

/-- A running task record with 1 of 5 attempts used. -/
def c3Task : TaskRecord :=
  (TaskRecord.new 0 { task_id := 1, task_type := "t", payload := 0 } 5).start_attempt 0

/-- A child spec proposed by an outcome. -/
def c3ChildSpec : TaskSpec :=
  { title := some ("child"), task_type := "t", payload := 1, dependencies_hint := none }

/-- An outcome proposing one child task. -/
def c3Outcome : Outcome :=
  { Outcome.success with child_tasks := some [c3ChildSpec] }

/-- Claim C3, counterexample.  The claim says the default decider returns
Decompose when the outcome contains `child_tasks`.  On a task with
1 of 5 attempts and an outcome proposing a child task, `DefaultDecider::decide`
returns Retry, not Decompose: the implementation ignores its outcome
argument entirely. -/
theorem C3_cex_decide_ignores_child_tasks :
    c3Outcome.child_tasks.isSome = true ∧
    (DefaultDecider.default_v1.decide c3Task c3Outcome).isDecompose = false ∧
    (DefaultDecider.default_v1.decide c3Task c3Outcome).isRetry = true :=
  ⟨rfl, rfl, rfl⟩

/-- Claim C3, amended.  `DefaultDecider::decide` ignores the outcome (it
never returns Decompose, even when the outcome proposes child tasks): it
returns MarkDead exactly when `attempts >= max_attempts` and otherwise Retry
with delay `base_delay * multiplier ^ (attempts - 1)`; and `next_delay(0)`
equals `base_delay`. -/
theorem C3_default_decider_ignores_outcome (d : DefaultDecider) (task : TaskRecord)
    (o : Outcome) :
    ((d.decide task o).isDecompose = false) ∧
    ((d.decide task o).isMarkDead = decide (task.max_attempts ≤ task.attempts)) ∧
    ((d.decide task o).delayOf =
      (if task.attempts < task.max_attempts then
        some (d.retry_policy.base_delay * d.retry_policy.multiplier ^ (task.attempts - 1))
       else none)) ∧
    d.retry_policy.next_delay 0 = d.retry_policy.base_delay := by
  unfold DefaultDecider.decide
  have hdelay : d.retry_policy.next_delay 0 = d.retry_policy.base_delay := by
    unfold RetryPolicy.next_delay
    norm_num
  by_cases h : task.max_attempts ≤ task.attempts
  · have hnlt : ¬ task.attempts < task.max_attempts := not_lt.mpr h
    simp [h, hnlt, Decision.isDecompose, Decision.isMarkDead, Decision.delayOf, hdelay]
  · have hlt : task.attempts < task.max_attempts := not_le.mp h
    simp [h, hlt, Decision.isDecompose, Decision.isMarkDead, Decision.delayOf, hdelay,
      RetryPolicy.next_delay]

/-! ## Claim C9: cancelling a Completed job -/

/-- A job record in state Completed. -/
def c9Job : JobRecord :=
  { JobRecord.new 0 1 (JobSpec.new []) with state := JobState.Completed }

/-- A queue state holding the Completed job under id 1. -/
def c9State : QState :=
  { QState.new RetryPolicy.default_v1 with jobs := [(1, c9Job)], next_job_id := 2 }

/-- Claim C9, counterexample.  The claim says cancelling an
already-Completed job is a no-op.  On a Completed job, `cancel_job`
succeeds and overwrites the state with Cancelled (and refreshes
`updated_at`): the job record does change. -/
theorem C9_cex_cancel_overwrites_completed :
    c9Job.state = JobState.Completed ∧
    (c9State.cancel_job 1 5).isSome = true ∧
    (((c9State.cancel_job 1 5).bind (fun s => alookup 1 s.jobs)).map JobRecord.state =
      some JobState.Cancelled) ∧
    ((c9State.cancel_job 1 5).bind (fun s => alookup 1 s.jobs)) ≠ some c9Job := by
  refine ⟨rfl, rfl, rfl, ?_⟩
  decide

/-- Claim C9, amended.  `cancel_job` on any existing job - in particular a
Completed one - is not a no-op: `mark_cancelled` unconditionally sets the
job's state to Cancelled and refreshes `updated_at`. -/
theorem C9_cancel_job_unconditionally_cancels (s : QState) (j : JobId) (job : JobRecord)
    (now : Time) (h : alookup j s.jobs = some job) :
    s.cancel_job j now =
      some { s with jobs := amodify j (JobRecord.mark_cancelled now) s.jobs } ∧
    alookup j (amodify j (JobRecord.mark_cancelled now) s.jobs) =
      some { job with state := JobState.Cancelled, updated_at := now } := by
  constructor
  · unfold QState.cancel_job
    rw [h]
  · rw [alookup_amodify_self, h]
    rfl

/-- Witness for the amended C9 at the concrete Completed job. -/
theorem C9_cancel_job_unconditionally_cancels_witness :
    alookup 1 (amodify 1 (JobRecord.mark_cancelled 5) c9State.jobs) =
      some { c9Job with state := JobState.Cancelled, updated_at := 5 } :=
  (C9_cancel_job_unconditionally_cancels c9State 1 c9Job 5 rfl).2


/-! ## Lease-path lemmas (used by claims C8 and C10) -/

/-- Owning job of a task in a state. -/
def jobIdOf (s : QState) (t : TaskId) : Option JobId :=
  (alookup t s.records).bind (fun r => r.job_id)

theorem requeue_state (now : Time) (r : TaskRecord) :
    (r.requeue now).state = TaskState.Queued := rfl

theorem requeue_job_id (now : Time) (r : TaskRecord) :
    (r.requeue now).job_id = r.job_id := rfl

theorem mark_stuck_deadline (now : Time) (j : JobRecord) :
    (j.mark_stuck now).deadline_at = j.deadline_at := rfl

theorem promoteStep_jobs (now : Time) (entry : Sched) (rest : List Sched) (s : QState) :
    (QState.promoteStep now entry rest s).jobs = s.jobs := by
  unfold QState.promoteStep
  split
  · split <;> rfl
  · rfl

theorem promoteStep_records (now : Time) (entry : Sched) (rest : List Sched)
    (s : QState) (t : TaskId) :
    alookup t (QState.promoteStep now entry rest s).records = alookup t s.records ∨
    (∃ r, alookup t s.records = some r ∧ r.state = TaskState.RetryScheduled ∧
      alookup t (QState.promoteStep now entry rest s).records =
        some (TaskRecord.requeue now r)) := by
  unfold QState.promoteStep
  cases hx : alookup entry.task_id s.records with
  | none => exact Or.inl rfl
  | some record =>
    dsimp only
    by_cases hst : record.state = TaskState.RetryScheduled
    · rw [if_pos hst]
      by_cases hte : t = entry.task_id
      · subst hte
        refine Or.inr ⟨record, hx, hst, ?_⟩
        show alookup entry.task_id (amodify entry.task_id (TaskRecord.requeue now) s.records) = _
        rw [alookup_amodify_self, hx]
        rfl
      · refine Or.inl ?_
        show alookup t (amodify entry.task_id (TaskRecord.requeue now) s.records) = _
        exact alookup_amodify_ne _ _ _ _ hte
    · rw [if_neg hst]
      exact Or.inl rfl

theorem promoteLoop_jobs (now : Time) :
    ∀ (fuel : Nat) (s : QState), (QState.promoteLoop fuel now s).jobs = s.jobs := by
  intro fuel
  induction fuel with
  | zero => intro s; rfl
  | succ n ih =>
    intro s
    unfold QState.promoteLoop
    cases hp : QState.popMinSched s.scheduled with
    | none => rfl
    | some p =>
      obtain ⟨entry, rest⟩ := p
      dsimp only
      by_cases ht : now < entry.next_run_at
      · rw [if_pos ht]
      · rw [if_neg ht]
        rw [ih (QState.promoteStep now entry rest s), promoteStep_jobs]

theorem promoteLoop_records (now : Time) :
    ∀ (fuel : Nat) (s : QState) (t : TaskId),
      alookup t (QState.promoteLoop fuel now s).records = alookup t s.records ∨
      (∃ r, alookup t s.records = some r ∧ r.state = TaskState.RetryScheduled ∧
        alookup t (QState.promoteLoop fuel now s).records =
          some (TaskRecord.requeue now r)) := by
  intro fuel
  induction fuel with
  | zero => intro s t; exact Or.inl rfl
  | succ n ih =>
    intro s t
    unfold QState.promoteLoop
    cases hp : QState.popMinSched s.scheduled with
    | none => exact Or.inl rfl
    | some p =>
      obtain ⟨entry, rest⟩ := p
      dsimp only
      by_cases ht : now < entry.next_run_at
      · rw [if_pos ht]
        exact Or.inl rfl
      · rw [if_neg ht]
        rcases ih (QState.promoteStep now entry rest s) t with hmid | ⟨r, hr, hst, hmid⟩
        · rcases promoteStep_records now entry rest s t with hstep | ⟨r, hr, hst, hstep⟩
          · exact Or.inl (hmid.trans hstep)
          · exact Or.inr ⟨r, hr, hst, hmid.trans hstep⟩
        · rcases promoteStep_records now entry rest s t with hstep | ⟨r0, hr0, hst0, hstep⟩
          · exact Or.inr ⟨r, hstep ▸ hr, hst, hmid⟩
          · rw [hstep] at hr
            have h' : r = TaskRecord.requeue now r0 := by
              have := hr
              simp only [Option.some.injEq] at this
              exact this.symm
            rw [h'] at hst
            simp [requeue_state] at hst
      
theorem promote_jobs (now : Time) (s : QState) :
    (s.promote_scheduled_tasks now).jobs = s.jobs :=
  promoteLoop_jobs now _ s

theorem promote_records (now : Time) (s : QState) (t : TaskId) :
    alookup t (s.promote_scheduled_tasks now).records = alookup t s.records ∨
    (∃ r, alookup t s.records = some r ∧ r.state = TaskState.RetryScheduled ∧
      alookup t (s.promote_scheduled_tasks now).records =
        some (TaskRecord.requeue now r)) :=
  promoteLoop_records now _ s t

theorem promote_keep (now : Time) (s : QState) (t : TaskId) (r : TaskRecord)
    (h : alookup t s.records = some r) (hne : r.state ≠ TaskState.RetryScheduled) :
    alookup t (s.promote_scheduled_tasks now).records = some r := by
  rcases promote_records now s t with heq | ⟨r0, hr0, hst0, heq⟩
  · rw [heq, h]
  · rw [h] at hr0
    simp only [Option.some.injEq] at hr0
    rw [← hr0] at hst0
    exact absurd hst0 hne

theorem promote_jobIdOf (now : Time) (s : QState) (t : TaskId) :
    jobIdOf (s.promote_scheduled_tasks now) t = jobIdOf s t := by
  unfold jobIdOf
  rcases promote_records now s t with heq | ⟨r0, hr0, hst0, heq⟩
  · rw [heq]
  · rw [heq, hr0]
    rfl


theorem tryLease_jobs (t : TaskId) (now : Time) (s : QState) :
    (QState.tryLease t now s).1.jobs = s.jobs := by
  unfold QState.tryLease
  split <;> rfl

theorem tryLease_snd (t : TaskId) (now : Time) (s : QState) :
    ∀ l, (QState.tryLease t now s).2 = some l → l.task_id = t := by
  unfold QState.tryLease
  cases hx : alookup t s.records with
  | none =>
    intro l hl
    simp at hl
  | some record =>
    intro l hl
    dsimp only at hl
    simp only [Option.some.injEq] at hl
    rw [← hl]

theorem tryLease_records_keep (t : TaskId) (now : Time) (s : QState) (x : TaskId)
    (r : TaskRecord) (hx : alookup x s.records = some r) (hne : x ≠ t) :
    alookup x (QState.tryLease t now s).1.records = some r := by
  unfold QState.tryLease
  cases hrec : alookup t s.records with
  | none => exact hx
  | some record =>
    dsimp only
    show alookup x (amodify t (TaskRecord.start_attempt now) s.records) = some r
    rw [alookup_amodify_ne _ _ _ _ hne]
    exact hx

/-- The job `j` is Cancelled, or already Stuck with its deadline elapsed
(the state a Cancelled job moves to on the lease path). -/
def CancelledOrStuck (j : JobId) (now : Time) (s : QState) : Prop :=
  ∃ job, alookup j s.jobs = some job ∧
    (job.state = JobState.Cancelled ∨
      (job.state = JobState.Stuck ∧ job.is_deadline_exceeded now = true))

theorem mark_stuck_deadline_exceeded (now now' : Time) (j : JobRecord) :
    (j.mark_stuck now').is_deadline_exceeded now = j.is_deadline_exceeded now := rfl

/-- Core lemma for claims C8 and C10: while job `j` is Cancelled (or already
Stuck past its deadline), a lease pass never hands out a task of `j`, and
every Queued record of `j` is left untouched. -/
theorem leaseLoop_skips_job (j : JobId) (now : Time) :
    ∀ (fuel : Nat) (s : QState), CancelledOrStuck j now s →
      (∀ l, (QState.leaseLoop fuel now s).2 = some l → jobIdOf s l.task_id ≠ some j) ∧
      (∀ t r, alookup t s.records = some r → r.job_id = some j →
        r.state = TaskState.Queued →
        alookup t (QState.leaseLoop fuel now s).1.records = some r) := by
  intro fuel
  induction fuel with
  | zero =>
    intro s hcs
    constructor
    · intro l hl
      simp [QState.leaseLoop] at hl
    · intro t r h _ _
      exact h
  | succ n ih =>
    intro s hcs
    have hpj : (s.promote_scheduled_tasks now).jobs = s.jobs := promote_jobs now s
    have hkeepQ : ∀ t r, alookup t s.records = some r → r.state = TaskState.Queued →
        alookup t (s.promote_scheduled_tasks now).records = some r := by
      intro t r h hq
      refine promote_keep now s t r h ?_
      rw [hq]
      intro hc
      cases hc
    have hjid : ∀ t, jobIdOf (s.promote_scheduled_tasks now) t = jobIdOf s t :=
      promote_jobIdOf now s
    have hcs1 : CancelledOrStuck j now (s.promote_scheduled_tasks now) := by
      obtain ⟨job, hj, hd⟩ := hcs
      refine ⟨job, ?_, hd⟩
      rw [hpj]
      exact hj
    unfold QState.leaseLoop
    dsimp only
    cases hq : (s.promote_scheduled_tasks now).ready with
    | nil =>
      constructor
      · intro l hl
        simp at hl
      · intro t r h _ hstate
        exact hkeepQ t r h hstate
    | cons t rest =>
      dsimp only
      cases hjt : (alookup t (s.promote_scheduled_tasks now).records).bind
          (fun r => r.job_id) with
      | some job_id =>
        dsimp only
        cases hlj : alookup job_id (s.promote_scheduled_tasks now).jobs with
        | some job =>
          dsimp only
          by_cases hdl : job.is_deadline_exceeded now = true
          · rw [if_pos hdl]
            have hcsA : CancelledOrStuck j now
                { s.promote_scheduled_tasks now with
                    ready := rest,
                    jobs := amodify job_id (JobRecord.mark_stuck now)
                      (s.promote_scheduled_tasks now).jobs } := by
              by_cases hje : job_id = j
              · subst hje
                refine ⟨job.mark_stuck now, ?_, Or.inr ⟨rfl, ?_⟩⟩
                · show alookup job_id (amodify job_id (JobRecord.mark_stuck now)
                    (s.promote_scheduled_tasks now).jobs) = _
                  rw [alookup_amodify_self, hlj]
                  rfl
                · rw [mark_stuck_deadline_exceeded]
                  exact hdl
              · obtain ⟨job0, hj0, hd0⟩ := hcs1
                refine ⟨job0, ?_, hd0⟩
                show alookup j (amodify job_id (JobRecord.mark_stuck now)
                  (s.promote_scheduled_tasks now).jobs) = _
                rw [alookup_amodify_ne _ _ _ _ (fun hh => hje hh.symm)]
                exact hj0
            have ihA := ih _ hcsA
            constructor
            · intro l hl
              have h1 := ihA.1 l hl
              intro hcontra
              apply h1
              show jobIdOf (s.promote_scheduled_tasks now) l.task_id = some j
              rw [hjid]
              exact hcontra
            · intro t' r h hjob hstate
              exact ihA.2 t' r (hkeepQ t' r h hstate) hjob hstate
          · rw [if_neg hdl]
            by_cases hcanc : job.state = JobState.Cancelled
            · rw [if_pos hcanc]
              have hcsB : CancelledOrStuck j now
                  { s.promote_scheduled_tasks now with ready := rest } := hcs1
              have ihB := ih _ hcsB
              constructor
              · intro l hl
                have h1 := ihB.1 l hl
                intro hcontra
                apply h1
                show jobIdOf (s.promote_scheduled_tasks now) l.task_id = some j
                rw [hjid]
                exact hcontra
              · intro t' r h hjob hstate
                exact ihB.2 t' r (hkeepQ t' r h hstate) hjob hstate
            · rw [if_neg hcanc]
              have hjne : job_id ≠ j := by
                intro hje
                subst hje
                obtain ⟨job0, hj0, hd0⟩ := hcs1
                rw [hlj] at hj0
                simp only [Option.some.injEq] at hj0
                subst hj0
                rcases hd0 with hco | ⟨_, hdd⟩
                · exact hcanc hco
                · exact hdl hdd
              constructor
              · intro l hl
                have hlt : l.task_id = t := tryLease_snd _ _ _ l hl
                rw [hlt]
                rw [← hjid t]
                show jobIdOf (s.promote_scheduled_tasks now) t ≠ some j
                unfold jobIdOf
                rw [hjt]
                intro hcc
                simp only [Option.some.injEq] at hcc
                exact hjne hcc
              · intro t' r h hjob hstate
                have h1 : alookup t' (s.promote_scheduled_tasks now).records = some r :=
                  hkeepQ t' r h hstate
                have hne : t' ≠ t := by
                  intro hte
                  subst hte
                  rw [show ((alookup t' (s.promote_scheduled_tasks now).records).bind
                    (fun r => r.job_id)) = some j by rw [h1]; exact hjob] at hjt
                  simp only [Option.some.injEq] at hjt
                  exact hjne hjt.symm
                exact tryLease_records_keep t now _ t' r h1 hne
        | none =>
          dsimp only
          have hjne : job_id ≠ j := by
            intro hje
            subst hje
            obtain ⟨job0, hj0, _⟩ := hcs1
            rw [hlj] at hj0
            cases hj0
          constructor
          · intro l hl
            have hlt : l.task_id = t := tryLease_snd _ _ _ l hl
            rw [hlt, ← hjid t]
            show jobIdOf (s.promote_scheduled_tasks now) t ≠ some j
            unfold jobIdOf
            rw [hjt]
            intro hcc
            simp only [Option.some.injEq] at hcc
            exact hjne hcc
          · intro t' r h hjob hstate
            have h1 : alookup t' (s.promote_scheduled_tasks now).records = some r :=
              hkeepQ t' r h hstate
            have hne : t' ≠ t := by
              intro hte
              subst hte
              rw [show ((alookup t' (s.promote_scheduled_tasks now).records).bind
                (fun r => r.job_id)) = some j by rw [h1]; exact hjob] at hjt
              simp only [Option.some.injEq] at hjt
              exact hjne hjt.symm
            exact tryLease_records_keep t now _ t' r h1 hne
      | none =>
        dsimp only
        constructor
        · intro l hl
          have hlt : l.task_id = t := tryLease_snd _ _ _ l hl
          rw [hlt, ← hjid t]
          show jobIdOf (s.promote_scheduled_tasks now) t ≠ some j
          unfold jobIdOf
          rw [hjt]
          intro hcc
          cases hcc
        · intro t' r h hjob hstate
          have h1 : alookup t' (s.promote_scheduled_tasks now).records = some r :=
            hkeepQ t' r h hstate
          have hne : t' ≠ t := by
            intro hte
            subst hte
            rw [show ((alookup t' (s.promote_scheduled_tasks now).records).bind
              (fun r => r.job_id)) = some j by rw [h1]; exact hjob] at hjt
            cases hjt
          exact tryLease_records_keep t now _ t' r h1 hne


/-- Once job `j` is Stuck with an elapsed deadline, a lease pass keeps it
Stuck. -/
theorem leaseLoop_keeps_stuck (j : JobId) (now : Time) :
    ∀ (fuel : Nat) (s : QState),
      (∃ job, alookup j s.jobs = some job ∧ job.state = JobState.Stuck ∧
        job.is_deadline_exceeded now = true) →
      (∃ job', alookup j (QState.leaseLoop fuel now s).1.jobs = some job' ∧
        job'.state = JobState.Stuck ∧ job'.is_deadline_exceeded now = true) := by
  intro fuel
  induction fuel with
  | zero =>
    intro s h
    exact h
  | succ n ih =>
    intro s h
    have hpj := promote_jobs now s
    have h1 : ∃ job, alookup j (s.promote_scheduled_tasks now).jobs = some job ∧
        job.state = JobState.Stuck ∧ job.is_deadline_exceeded now = true := by
      obtain ⟨job, hj, hst, hdl⟩ := h
      exact ⟨job, by rw [hpj]; exact hj, hst, hdl⟩
    unfold QState.leaseLoop
    dsimp only
    cases hq : (s.promote_scheduled_tasks now).ready with
    | nil => exact h1
    | cons t rest =>
      dsimp only
      cases hjt : (alookup t (s.promote_scheduled_tasks now).records).bind
          (fun r => r.job_id) with
      | some job_id =>
        dsimp only
        cases hlj : alookup job_id (s.promote_scheduled_tasks now).jobs with
        | some jb =>
          dsimp only
          by_cases hdl2 : jb.is_deadline_exceeded now = true
          · rw [if_pos hdl2]
            apply ih
            by_cases hje : job_id = j
            · subst hje
              refine ⟨jb.mark_stuck now, ?_, rfl, ?_⟩
              · show alookup job_id (amodify job_id (JobRecord.mark_stuck now)
                  (s.promote_scheduled_tasks now).jobs) = _
                rw [alookup_amodify_self, hlj]
                rfl
              · rw [mark_stuck_deadline_exceeded]
                exact hdl2
            · obtain ⟨job0, hj0, hst0, hdl0⟩ := h1
              refine ⟨job0, ?_, hst0, hdl0⟩
              show alookup j (amodify job_id (JobRecord.mark_stuck now)
                (s.promote_scheduled_tasks now).jobs) = _
              rw [alookup_amodify_ne _ _ _ _ (fun hh => hje hh.symm)]
              exact hj0
          · rw [if_neg hdl2]
            by_cases hcanc : jb.state = JobState.Cancelled
            · rw [if_pos hcanc]
              exact ih _ h1
            · rw [if_neg hcanc]
              obtain ⟨job0, hj0, hst0, hdl0⟩ := h1
              refine ⟨job0, ?_, hst0, hdl0⟩
              rw [tryLease_jobs]
              exact hj0
        | none =>
          dsimp only
          obtain ⟨job0, hj0, hst0, hdl0⟩ := h1
          refine ⟨job0, ?_, hst0, hdl0⟩
          rw [tryLease_jobs]
          exact hj0
      | none =>
        dsimp only
        obtain ⟨job0, hj0, hst0, hdl0⟩ := h1
        refine ⟨job0, ?_, hst0, hdl0⟩
        rw [tryLease_jobs]
        exact hj0

/-! ## Claim C8: cancelled jobs are skipped by lease -/

/-- Claim C8.  After `cancel_job` sets a job to Cancelled, a `lease` call
never returns a lease on a task of that job: every such task is skipped,
and every Queued task record of the job is left completely untouched by the
lease pass (in particular it stays Queued and never becomes Running).
In-flight leases are unaffected by cancellation (cancel only touches the
job record), which this statement reflects by quantifying over a single
lease pass from an arbitrary state in which the job is Cancelled. -/
theorem C8_cancelled_job_tasks_never_leased (s : QState) (now : Time) (j : JobId)
    (job : JobRecord) (hj : alookup j s.jobs = some job)
    (hc : job.state = JobState.Cancelled) :
    (∀ l, (s.lease now).2 = some l → jobIdOf s l.task_id ≠ some j) ∧
    (∀ t r, alookup t s.records = some r → r.job_id = some j →
      r.state = TaskState.Queued →
      alookup t (s.lease now).1.records = some r ∧
      (alookup t (s.lease now).1.records).map TaskRecord.state =
        some TaskState.Queued) := by
  have h := leaseLoop_skips_job j now (QState.leaseFuel s) s ⟨job, hj, Or.inl hc⟩
  constructor
  · intro l hl
    exact h.1 l hl
  · intro t r h1 h2 h3
    have hk := h.2 t r h1 h2 h3
    refine ⟨hk, ?_⟩
    show (alookup t (QState.leaseLoop (QState.leaseFuel s) now s).1.records).map
      TaskRecord.state = some TaskState.Queued
    rw [hk]
    simp [h3]

/-- Task spec of the concrete C8 witness scenario. -/
def c8TaskSpec : TaskSpec :=
  { title := some ("t"), task_type := "tt", payload := 0, dependencies_hint := none }

/-- Concrete scenario for the C8 witness: a one-task job. -/
def c8Spec : JobSpec :=
  JobSpec.new [c8TaskSpec]

/-- State after submitting the one-task job and cancelling it. -/
def c8State : QState :=
  ((((QState.new RetryPolicy.default_v1).submit_job c8Spec 0).2).cancel_job 1 0).getD
    (QState.new RetryPolicy.default_v1)

/-- The cancelled job record held by `c8State`. -/
def c8Job : JobRecord :=
  JobRecord.mark_cancelled 0 (JobRecord.add_task 0 1 (JobRecord.new 0 1 c8Spec))

/-- Witness for C8: the concrete cancelled job's task (id 1, Queued) is
never leased. -/
theorem C8_cancelled_job_tasks_never_leased_witness :
    alookup 1 c8State.jobs = some c8Job ∧
    c8Job.state = JobState.Cancelled ∧
    (∀ l, (c8State.lease 0).2 = some l → jobIdOf c8State l.task_id ≠ some 1) :=
  ⟨by decide, rfl,
    (C8_cancelled_job_tasks_never_leased c8State 0 1 c8Job (by decide) rfl).1⟩

/-! ## Claim C10: the deadline check precedes the cancellation check -/

/-- Claim C10.  When `lease` pops a task whose owning job has an elapsed
deadline, the job is marked Stuck and the task is skipped without being
leased; because the deadline check runs before the cancellation check,
this happens even when the job was previously Cancelled: the lease pass
leaves the job in state Stuck (Cancelled is not absorbing on the lease
path), never leases the popped task, and leaves its Queued record
untouched. -/
theorem C10_deadline_marks_cancelled_job_stuck (s : QState) (now : Time)
    (t : TaskId) (rest : List TaskId) (r : TaskRecord) (j : JobId) (job : JobRecord)
    (hsched : s.scheduled = [])
    (hready : s.ready = t :: rest)
    (hr : alookup t s.records = some r)
    (hjid : r.job_id = some j)
    (hqd : r.state = TaskState.Queued)
    (hjob : alookup j s.jobs = some job)
    (hcancel : job.state = JobState.Cancelled)
    (hdl : job.is_deadline_exceeded now = true) :
    (∃ job', alookup j (s.lease now).1.jobs = some job' ∧
      job'.state = JobState.Stuck) ∧
    (∀ l, (s.lease now).2 = some l → l.task_id ≠ t) ∧
    alookup t (s.lease now).1.records = some r := by
  have hpromote : s.promote_scheduled_tasks now = s := by
    unfold QState.promote_scheduled_tasks
    rw [hsched]
    rfl
  have hfuel : QState.leaseFuel s = rest.length + 1 + 1 := by
    unfold QState.leaseFuel
    rw [hready, hsched]
    simp
  have hstep : QState.leaseLoop (rest.length + 1 + 1) now s =
      QState.leaseLoop (rest.length + 1) now
        { s with ready := rest, jobs := amodify j (JobRecord.mark_stuck now) s.jobs } := by
    unfold QState.leaseLoop
    dsimp only
    rw [hpromote, hready]
    dsimp only
    rw [hr]
    rw [show (some r).bind (fun r => r.job_id) = r.job_id from rfl, hjid]
    dsimp only
    rw [hjob]
    dsimp only
    rw [if_pos hdl]
    rfl
  have hstuck0 : ∃ jb, alookup j
      ({ s with ready := rest, jobs := amodify j (JobRecord.mark_stuck now) s.jobs } :
        QState).jobs = some jb ∧ jb.state = JobState.Stuck ∧
      jb.is_deadline_exceeded now = true := by
    refine ⟨job.mark_stuck now, ?_, rfl, ?_⟩
    · show alookup j (amodify j (JobRecord.mark_stuck now) s.jobs) = _
      rw [alookup_amodify_self, hjob]
      rfl
    · rw [mark_stuck_deadline_exceeded]
      exact hdl
  have hcs : CancelledOrStuck j now
      { s with ready := rest, jobs := amodify j (JobRecord.mark_stuck now) s.jobs } := by
    obtain ⟨jb, h1, h2, h3⟩ := hstuck0
    exact ⟨jb, h1, Or.inr ⟨h2, h3⟩⟩
  have hskip := leaseLoop_skips_job j now (rest.length + 1) _ hcs
  have hkeep := leaseLoop_keeps_stuck j now (rest.length + 1) _ hstuck0
  have hlease : s.lease now =
      QState.leaseLoop (rest.length + 1) now
        { s with ready := rest, jobs := amodify j (JobRecord.mark_stuck now) s.jobs } := by
    show QState.leaseLoop (QState.leaseFuel s) now s = _
    rw [hfuel, hstep]
  refine ⟨?_, ?_, ?_⟩
  · obtain ⟨job', h1, h2, _⟩ := hkeep
    refine ⟨job', ?_, h2⟩
    rw [hlease]
    exact h1
  · intro l hl
    rw [hlease] at hl
    have h1 := hskip.1 l hl
    intro hlt
    apply h1
    rw [hlt]
    show (alookup t s.records).bind (fun r => r.job_id) = some j
    rw [hr]
    show r.job_id = some j
    exact hjid
  · rw [hlease]
    exact hskip.2 t r hr hjid hqd

/-- Concrete scenario for the C10 witness: a one-task job with
`deadline_ms = 0`, submitted at time 0 and cancelled, observed at time 1. -/
def c10Budget : Budget :=
  { max_attempts_per_task := 5, max_total_attempts := none, deadline_ms := some 0,
    max_no_progress_steps := some 50 }

/-- Job spec of the C10 witness scenario (one task, `deadline_ms = 0`). -/
def c10Spec : JobSpec :=
  { tasks := [c8TaskSpec], budget := c10Budget }

/-- State after submitting the deadline-0 job and cancelling it. -/
def c10State : QState :=
  ((((QState.new RetryPolicy.default_v1).submit_job c10Spec 0).2).cancel_job 1 0).getD
    (QState.new RetryPolicy.default_v1)

/-- The cancelled job record held by `c10State`. -/
def c10Job : JobRecord :=
  JobRecord.mark_cancelled 0 (JobRecord.add_task 0 1 (JobRecord.new 0 1 c10Spec))

/-- The Queued task record of the cancelled job in `c10State`. -/
def c10Record : TaskRecord :=
  TaskRecord.new_with_job 0 { task_id := 1, task_type := "tt", payload := 0 } 5 1

/-- Witness for C10: at time 1 the cancelled job's deadline has elapsed, and
the lease pass marks it Stuck. -/
theorem c10_deadline_fact : c10Job.is_deadline_exceeded 1 = true := by
  show JobRecord.is_deadline_exceeded 1 c10Job = true
  unfold c10Job c10Spec c10Budget JobRecord.is_deadline_exceeded
    JobRecord.mark_cancelled JobRecord.add_task JobRecord.new
  norm_num

/-- Witness for C10 at the concrete cancelled deadline-0 job, observed at
time 1: the lease pass marks the cancelled job Stuck. -/
theorem C10_deadline_marks_cancelled_job_stuck_witness :
    c10Job.state = JobState.Cancelled ∧
    c10Job.is_deadline_exceeded 1 = true ∧
    (∃ job', alookup 1 (c10State.lease 1).1.jobs = some job' ∧
      job'.state = JobState.Stuck) :=
  ⟨rfl, c10_deadline_fact,
    (C10_deadline_marks_cancelled_job_stuck c10State 1 1 [] c10Record 1 c10Job
      (by decide) (by decide) (by decide) rfl rfl rfl rfl c10_deadline_fact).1⟩


/-! ## Claim C7: the ack path -/

theorem ainsert_length_fresh (k : Nat) (v : α) (l : List (Nat × α))
    (h : alookup k l = none) : (ainsert k v l).length = l.length + 1 := by
  unfold ainsert
  rw [h]
  simp

/-- Push condition of the dependent-resolution loop in `ack`: the waiter
exists, and after removing the resolved dependency it has no dependencies
left and is Queued. -/
def ackPush (completed : TaskId) (s : QState) (w : TaskId) : Bool :=
  match alookup w s.records with
  | some task =>
    decide ((task.remove_dependency completed).has_dependencies = false ∧
      (task.remove_dependency completed).state = TaskState.Queued)
  | none => false

theorem entryRemove_keys_sublist (k x : Nat) (l : List (Nat × List Nat)) :
    ((DependencyGraph.entryRemove k x l).map Prod.fst).Sublist (l.map Prod.fst) := by
  induction l with
  | nil => exact List.Sublist.refl _
  | cons p rest ih =>
    obtain ⟨k', s⟩ := p
    unfold DependencyGraph.entryRemove
    by_cases hk : k' = k
    · rw [if_pos hk]
      dsimp only
      by_cases he : (s.erase x).isEmpty
      · rw [if_pos he]
        exact (List.Sublist.refl _).cons _
      · rw [if_neg he]
        simp only [List.map_cons]
        exact (List.Sublist.refl _).cons₂ _
    · rw [if_neg hk]
      simp only [List.map_cons]
      exact ih.cons₂ _

theorem alookup_entryRemove_self (k x : Nat) (l : List (Nat × List Nat))
    (hkeys : (l.map Prod.fst).Nodup) :
    (alookup k (DependencyGraph.entryRemove k x l)).getD [] =
      ((alookup k l).getD []).erase x := by
  induction l with
  | nil => rfl
  | cons p rest ih =>
    obtain ⟨k', s⟩ := p
    simp only [List.map_cons, List.nodup_cons] at hkeys
    unfold DependencyGraph.entryRemove
    by_cases hk : k' = k
    · rw [if_pos hk]
      dsimp only
      by_cases he : (s.erase x).isEmpty
      · rw [if_pos he]
        have hnone : alookup k rest = none := by
          apply alookup_eq_none_of_forall
          intro q hq hqk
          apply hkeys.1
          rw [hk, ← hqk]
          exact List.mem_map_of_mem Prod.fst hq
        rw [hnone]
        simp only [alookup, hk, if_pos rfl, Option.getD_some, Option.getD_none]
        rw [List.isEmpty_iff] at he
        exact he.symm
      · rw [if_neg he]
        simp [alookup, hk]
    · rw [if_neg hk]
      simp only [alookup, hk, if_false]
      exact ih hkeys.2

theorem alookup_entryRemove_ne (k k₀ x : Nat) (l : List (Nat × List Nat))
    (hkeys : (l.map Prod.fst).Nodup) (hne : k₀ ≠ k) :
    alookup k₀ (DependencyGraph.entryRemove k x l) = alookup k₀ l := by
  induction l with
  | nil => rfl
  | cons p rest ih =>
    obtain ⟨k', s⟩ := p
    simp only [List.map_cons, List.nodup_cons] at hkeys
    unfold DependencyGraph.entryRemove
    by_cases hk : k' = k
    · rw [if_pos hk]
      dsimp only
      have hne' : ¬ k' = k₀ := by
        rw [hk]
        exact fun hh => hne hh.symm
      by_cases he : (s.erase x).isEmpty
      · rw [if_pos he]
        simp only [alookup, hne', if_false]
      · rw [if_neg he]
        simp only [alookup, hne', if_false]
    · rw [if_neg hk]
      by_cases hk0 : k' = k₀
      · simp [alookup, hk0]
      · simp only [alookup, hk0, if_false]
        exact ih hkeys.2

theorem ackWaiterStep_attempts (c w : TaskId) (s : QState) :
    (QState.ackWaiterStep c w s).attempts = s.attempts := by
  unfold QState.ackWaiterStep
  dsimp only
  cases alookup w s.records with
  | none => rfl
  | some task =>
    dsimp only
    split <;> rfl

theorem ackWaiterStep_decisions (c w : TaskId) (s : QState) :
    (QState.ackWaiterStep c w s).decisions = s.decisions := by
  unfold QState.ackWaiterStep
  dsimp only
  cases alookup w s.records with
  | none => rfl
  | some task =>
    dsimp only
    split <;> rfl

theorem ackWaiterStep_records_ne (c w x : TaskId) (s : QState) (hne : x ≠ w) :
    alookup x (QState.ackWaiterStep c w s).records = alookup x s.records := by
  unfold QState.ackWaiterStep
  dsimp only
  cases alookup w s.records with
  | none => rfl
  | some task =>
    dsimp only
    split
    · exact alookup_amodify_ne _ _ _ _ hne
    · exact alookup_amodify_ne _ _ _ _ hne

theorem ackWaiterStep_records_self (c w : TaskId) (s : QState) :
    alookup w (QState.ackWaiterStep c w s).records =
      (alookup w s.records).map (TaskRecord.remove_dependency c) := by
  unfold QState.ackWaiterStep
  dsimp only
  cases hlw : alookup w s.records with
  | none =>
    dsimp only
    rw [hlw]
    rfl
  | some task =>
    dsimp only
    split
    · show alookup w (amodify w _ s.records) = _
      rw [alookup_amodify_self, hlw]
      rfl
    · show alookup w (amodify w _ s.records) = _
      rw [alookup_amodify_self, hlw]
      rfl

theorem ackWaiterStep_ready (c w : TaskId) (s : QState) :
    (QState.ackWaiterStep c w s).ready =
      s.ready ++ (if ackPush c s w then [w] else []) := by
  unfold QState.ackWaiterStep ackPush
  dsimp only
  cases hlw : alookup w s.records with
  | none => simp
  | some task =>
    dsimp only
    by_cases hcond : ((task.remove_dependency c).has_dependencies = false ∧
        (task.remove_dependency c).state = TaskState.Queued)
    · rw [if_pos hcond]
      simp [hcond]
    · rw [if_neg hcond]
      simp [hcond]

theorem ackWaiterStep_graph (c w : TaskId) (s : QState) :
    (QState.ackWaiterStep c w s).dependency_graph =
      s.dependency_graph.remove_dependency w c := by
  unfold QState.ackWaiterStep
  dsimp only
  cases alookup w s.records with
  | none => rfl
  | some task =>
    dsimp only
    split <;> rfl

theorem get_waiting_some {s : QState} {completed w : TaskId} {tail : List TaskId}
    (hwait : s.dependency_graph.get_waiting_tasks completed = w :: tail) :
    alookup completed s.dependency_graph.reverse_edges = some (w :: tail) := by
  unfold DependencyGraph.get_waiting_tasks at hwait
  cases hl : alookup completed s.dependency_graph.reverse_edges with
  | none =>
    rw [hl] at hwait
    simp at hwait
  | some v =>
    rw [hl] at hwait
    simp only [Option.getD_some] at hwait
    rw [hwait]

/-- Effect of the dependent-resolution loop of `ack` on the state it starts
from: attempts and decisions are untouched, non-waiters keep their records,
each waiter's record loses the resolved dependency, exactly the waiters
satisfying the push condition are appended to ready (in order), and nobody
waits for the completed task afterwards. -/
theorem resolveWaiters_spec (completed : TaskId) :
    ∀ (ws : List TaskId) (s : QState),
      completed ∉ ws → ws.Nodup →
      s.dependency_graph.get_waiting_tasks completed = ws →
      (s.dependency_graph.reverse_edges.map Prod.fst).Nodup →
      (QState.resolveWaiters completed ws s).attempts = s.attempts ∧
      (QState.resolveWaiters completed ws s).decisions = s.decisions ∧
      (∀ x, x ∉ ws → alookup x (QState.resolveWaiters completed ws s).records =
        alookup x s.records) ∧
      (∀ w ∈ ws, alookup w (QState.resolveWaiters completed ws s).records =
        (alookup w s.records).map (TaskRecord.remove_dependency completed)) ∧
      (QState.resolveWaiters completed ws s).ready =
        s.ready ++ ws.filter (ackPush completed s) ∧
      (QState.resolveWaiters completed ws s).dependency_graph.get_waiting_tasks
        completed = [] := by
  intro ws
  induction ws with
  | nil =>
    intro s _ _ hwait _
    refine ⟨rfl, rfl, fun x _ => rfl, ?_, ?_, hwait⟩
    · intro w hw
      simp at hw
    · simp [QState.resolveWaiters]
  | cons w tail ih =>
    intro s hnotin hnodup hwait hkeys
    have hw_notin_tail : w ∉ tail := (List.nodup_cons.mp hnodup).1
    have htail_nodup : tail.Nodup := (List.nodup_cons.mp hnodup).2
    have hc_notin_tail : completed ∉ tail := fun h => hnotin (List.mem_cons_of_mem _ h)
    have hrev : alookup completed s.dependency_graph.reverse_edges = some (w :: tail) :=
      get_waiting_some hwait
    have hres : QState.resolveWaiters completed (w :: tail) s =
        QState.resolveWaiters completed tail (QState.ackWaiterStep completed w s) := rfl
    have hgr : (QState.ackWaiterStep completed w s).dependency_graph =
        s.dependency_graph.remove_dependency w completed := ackWaiterStep_graph _ _ _
    have hwA : (QState.ackWaiterStep completed w s).dependency_graph.get_waiting_tasks
        completed = tail := by
      rw [hgr]
      show (alookup completed (DependencyGraph.entryRemove completed w
        s.dependency_graph.reverse_edges)).getD [] = tail
      rw [alookup_entryRemove_self _ _ _ hkeys]
      rw [show (alookup completed s.dependency_graph.reverse_edges).getD [] = w :: tail
        from by rw [hrev]; rfl]
      exact List.erase_cons_head w tail
    have hkeysA : ((QState.ackWaiterStep completed w s).dependency_graph.reverse_edges.map
        Prod.fst).Nodup := by
      rw [hgr]
      exact List.Nodup.sublist (entryRemove_keys_sublist _ _ _) hkeys
    have IHA := ih (QState.ackWaiterStep completed w s) hc_notin_tail htail_nodup hwA hkeysA
    have hpush : ∀ y ∈ tail, ackPush completed (QState.ackWaiterStep completed w s) y =
        ackPush completed s y := by
      intro y hy
      have hyne : y ≠ w := fun h => hw_notin_tail (h ▸ hy)
      unfold ackPush
      rw [ackWaiterStep_records_ne _ _ _ _ hyne]
    rw [hres]
    refine ⟨?_, ?_, ?_, ?_, ?_, IHA.2.2.2.2.2⟩
    · rw [IHA.1, ackWaiterStep_attempts]
    · rw [IHA.2.1, ackWaiterStep_decisions]
    · intro x hx
      have hxw : x ≠ w := fun h => hx (h ▸ List.mem_cons_self _ _)
      have hxt : x ∉ tail := fun h => hx (List.mem_cons_of_mem _ h)
      rw [IHA.2.2.1 x hxt, ackWaiterStep_records_ne _ _ _ _ hxw]
    · intro w' hw'
      rcases List.mem_cons.mp hw' with hww | hwt
      · subst hww
        rw [IHA.2.2.1 w' hw_notin_tail, ackWaiterStep_records_self]
      · have hw'ne : w' ≠ w := fun h => hw_notin_tail (h ▸ hwt)
        rw [IHA.2.2.2.1 w' hwt, ackWaiterStep_records_ne _ _ _ _ hw'ne]
    · rw [IHA.2.2.2.2.1, List.filter_congr hpush, ackWaiterStep_ready]
      by_cases hp : ackPush completed s w
      · rw [if_pos hp, List.filter_cons_of_pos hp]
        simp
      · rw [if_neg hp, List.filter_cons_of_neg (by simpa using hp)]
        simp

theorem alookup_append_single (k : Nat) (v : α) (l : List (Nat × α))
    (h : alookup k l = none) : alookup k (l ++ [(k, v)]) = some v := by
  induction l with
  | nil => simp [alookup]
  | cons p rest ih =>
    obtain ⟨k1, v1⟩ := p
    simp only [alookup] at h
    by_cases hk : k1 = k
    · rw [if_pos hk] at h
      exact absurd h (by simp)
    · rw [if_neg hk] at h
      simp only [List.cons_append, alookup, if_neg hk]
      exact ih h

theorem alookup_ainsert_fresh (k : Nat) (v : α) (l : List (Nat × α))
    (h : alookup k l = none) : alookup k (ainsert k v l) = some v := by
  unfold ainsert
  rw [h]
  show alookup k (l ++ [(k, v)]) = some v
  exact alookup_append_single k v l h

theorem ackPush_congr (c w : TaskId) (s₁ s₂ : QState)
    (h : alookup w s₁.records = alookup w s₂.records) :
    ackPush c s₁ w = ackPush c s₂ w := by
  unfold ackPush
  rw [h]

/-- The state of `ack` after its bookkeeping and before the dependent
resolution loop: attempt id allocated, Success attempt record inserted and
the acked record marked Succeeded (the value called `s3` in the let chain of
the model of `InMemoryLease::ack`; a plain abbreviation, introduced so the
loop lemma applies to it by name). -/
def ackCore (l : Lease) (now : Time) (s : QState) : QState :=
  { s with
      next_attempt_id := s.next_attempt_id + 1
      attempts := ainsert s.next_attempt_id
        (AttemptRecord.new now s.next_attempt_id l.task_id l.envelope.payload []
          Outcome.success) s.attempts
      records := amodify l.task_id (TaskRecord.mark_succeeded now) s.records }

/-- Claim C7: on the success path, `ack` appends exactly one attempt record,
which carries a Success outcome, appends no decision record, marks the acked
task Succeeded, removes the resolved dependency from every waiter, pushes to
the ready FIFO exactly the waiters that are then Queued with no remaining
dependencies, and leaves nobody waiting for the acked task. -/
theorem C7_ack_success_path (l : Lease) (now : Time) (s : QState) (r : TaskRecord)
    (hr : alookup l.task_id s.records = some r)
    (hfresh : alookup s.next_attempt_id s.attempts = none)
    (hself : l.task_id ∉ s.dependency_graph.get_waiting_tasks l.task_id)
    (hnodup : (s.dependency_graph.get_waiting_tasks l.task_id).Nodup)
    (hkeys : (s.dependency_graph.reverse_edges.map Prod.fst).Nodup) :
    (QState.ack l now s).attempts.length = s.attempts.length + 1 ∧
    alookup s.next_attempt_id (QState.ack l now s).attempts =
      some (AttemptRecord.new now s.next_attempt_id l.task_id l.envelope.payload []
        Outcome.success) ∧
    (AttemptRecord.new now s.next_attempt_id l.task_id l.envelope.payload []
      Outcome.success).outcome.kind = OutcomeKind.Success ∧
    (QState.ack l now s).decisions = s.decisions ∧
    alookup l.task_id (QState.ack l now s).records = some (r.mark_succeeded now) ∧
    (r.mark_succeeded now).state = TaskState.Succeeded ∧
    (∀ w ∈ s.dependency_graph.get_waiting_tasks l.task_id,
      alookup w (QState.ack l now s).records =
        (alookup w s.records).map (TaskRecord.remove_dependency l.task_id)) ∧
    (QState.ack l now s).ready = s.ready ++
      (s.dependency_graph.get_waiting_tasks l.task_id).filter (ackPush l.task_id s) ∧
    (QState.ack l now s).dependency_graph.get_waiting_tasks l.task_id = [] := by
  have hcore : QState.ack l now s = QState.resolveWaiters l.task_id
      (s.dependency_graph.get_waiting_tasks l.task_id) (ackCore l now s) := rfl
  have hres := resolveWaiters_spec l.task_id
    (s.dependency_graph.get_waiting_tasks l.task_id) (ackCore l now s)
    hself hnodup rfl hkeys
  refine ⟨?_, ?_, rfl, ?_, ?_, rfl, ?_, ?_, ?_⟩
  · rw [hcore, hres.1]
    exact ainsert_length_fresh _ _ _ hfresh
  · rw [hcore, hres.1]
    exact alookup_ainsert_fresh _ _ _ hfresh
  · rw [hcore, hres.2.1]
    rfl
  · rw [hcore, hres.2.2.1 l.task_id hself]
    show alookup l.task_id (amodify l.task_id (TaskRecord.mark_succeeded now) s.records) =
      some (r.mark_succeeded now)
    rw [alookup_amodify_self, hr]
    rfl
  · intro w hw
    have hwne : w ≠ l.task_id := fun h => hself (h ▸ hw)
    rw [hcore, hres.2.2.2.1 w hw]
    show (alookup w (amodify l.task_id (TaskRecord.mark_succeeded now) s.records)).map
      (TaskRecord.remove_dependency l.task_id) = _
    rw [alookup_amodify_ne _ _ _ _ hwne]
  · rw [hcore, hres.2.2.2.2.1]
    show s.ready ++ _ = s.ready ++ _
    congr 1
    apply List.filter_congr
    intro w hw
    have hwne : w ≠ l.task_id := fun h => hself (h ▸ hw)
    exact ackPush_congr _ _ _ _ (alookup_amodify_ne _ _ _ _ hwne)
  · rw [hcore]
    exact hres.2.2.2.2.2

/-- Envelope of task `i` in the C7 witness scenario. -/
def c7Env (i : Nat) : TaskEnvelope :=
  { task_id := i, task_type := "t", payload := 0 }

/-- C7 witness: the acked task, Running with one attempt. -/
def c7Rec1 : TaskRecord :=
  { TaskRecord.new 0 (c7Env 1) 5 with state := TaskState.Running, attempts := 1 }

/-- C7 witness: a waiter depending only on task 1. -/
def c7Rec2 : TaskRecord :=
  { TaskRecord.new 0 (c7Env 2) 5 with depends_on := [1] }

/-- C7 witness: a waiter depending on tasks 1 and 4. -/
def c7Rec3 : TaskRecord :=
  { TaskRecord.new 0 (c7Env 3) 5 with depends_on := [1, 4] }

/-- C7 witness: an independent ready task. -/
def c7Rec4 : TaskRecord :=
  TaskRecord.new 0 (c7Env 4) 5

/-- C7 witness dependency graph: 2 depends on 1, 3 depends on 1 and 4. -/
def c7Graph : DependencyGraph :=
  { edges := [(2, [1]), (3, [1, 4])], reverse_edges := [(1, [2, 3]), (4, [3])] }

/-- C7 witness state: task 1 Running (leased), waiters 2 and 3, ready 4. -/
def c7State : QState :=
  { QState.new RetryPolicy.default_v1 with
      records := [(1, c7Rec1), (2, c7Rec2), (3, c7Rec3), (4, c7Rec4)]
      ready := [4]
      dependency_graph := c7Graph
      next_task_id := 5 }

/-- C7 witness lease on task 1. -/
def c7Lease : Lease :=
  { task_id := 1, envelope := c7Env 1, retry_policy := RetryPolicy.default_v1 }

/-- Witness for C7 at the concrete four-task scenario: acking task 1 at time
7 adds one attempt record, adds no decision record, marks task 1 Succeeded
and pushes exactly waiter 2 (whose only dependency was 1) to ready, while
waiter 3 still waits for 4. -/
theorem C7_ack_success_path_witness :
    alookup 1 c7State.records = some c7Rec1 ∧
    alookup c7State.next_attempt_id c7State.attempts = none ∧
    (QState.ack c7Lease 7 c7State).attempts.length = c7State.attempts.length + 1 ∧
    (QState.ack c7Lease 7 c7State).decisions = c7State.decisions ∧
    alookup 1 (QState.ack c7Lease 7 c7State).records = some (c7Rec1.mark_succeeded 7) ∧
    (QState.ack c7Lease 7 c7State).ready = [4, 2] ∧
    (QState.ack c7Lease 7 c7State).dependency_graph.get_waiting_tasks 1 = [] := by
  have H := C7_ack_success_path c7Lease 7 c7State c7Rec1 rfl rfl
    (by decide) (by decide) (by decide)
  refine ⟨rfl, rfl, H.1, H.2.2.2.1, H.2.2.2.2.1, ?_, H.2.2.2.2.2.2.2.2⟩
  rw [H.2.2.2.2.2.2.2.1]
  rfl

/-! ## Reachability invariants shared by claims C4, C5 and C6 -/

theorem alookup_amodify_some (k0 : Nat) (f : α → α) (l : List (Nat × α)) (k : Nat) (r : α)
    (h : alookup k (amodify k0 f l) = some r) : ∃ r0, alookup k l = some r0 := by
  by_cases hk : k = k0
  · subst hk
    rw [alookup_amodify_self] at h
    cases hl : alookup k l with
    | none => rw [hl] at h; simp at h
    | some r0 => exact ⟨r0, rfl⟩
  · rw [alookup_amodify_ne _ _ _ _ hk] at h
    exact ⟨r, h⟩

theorem alookup_ainsert_some (k0 : Nat) (v : α) (l : List (Nat × α)) (k : Nat) (r : α)
    (h : alookup k (ainsert k0 v l) = some r) : k = k0 ∨ ∃ r0, alookup k l = some r0 := by
  by_cases hk : k = k0
  · exact Or.inl hk
  · rw [alookup_ainsert_ne _ _ _ _ hk] at h
    exact Or.inr ⟨r, h⟩

theorem is_terminal_cases {st : TaskState} (h : st.is_terminal = true) :
    st = TaskState.Succeeded ∨ st = TaskState.Decomposed ∨ st = TaskState.Dead := by
  cases st <;> simp_all [TaskState.is_terminal]

theorem terminal_ne_queued {st : TaskState} (h : st.is_terminal = true) :
    st ≠ TaskState.Queued := by
  rcases is_terminal_cases h with h1 | h1 | h1 <;> (rw [h1]; intro hc; cases hc)

theorem terminal_ne_retry {st : TaskState} (h : st.is_terminal = true) :
    st ≠ TaskState.RetryScheduled := by
  rcases is_terminal_cases h with h1 | h1 | h1 <;> (rw [h1]; intro hc; cases hc)

theorem terminal_ne_running {st : TaskState} (h : st.is_terminal = true) :
    st ≠ TaskState.Running := by
  rcases is_terminal_cases h with h1 | h1 | h1 <;> (rw [h1]; intro hc; cases hc)

/-- State part of the reachability invariant: no public operation ever
populates the dependency graph (declared dependencies are dropped by
`submit_job`), every ready entry references an existing Queued record, the
ready FIFO has no duplicates, record keys stay below the task-id allocator,
and no record ever holds an unresolved dependency. -/
def SInv (s : QState) : Prop :=
  s.dependency_graph = DependencyGraph.new ∧
  (∀ t ∈ s.ready, ∃ r, alookup t s.records = some r ∧ r.state = TaskState.Queued) ∧
  s.ready.Nodup ∧
  (∀ k r, alookup k s.records = some r → k < s.next_task_id) ∧
  (∀ k r, alookup k s.records = some r → r.depends_on = [])

/-- Attempt-budget invariant (claim C4): every record keeps
`attempts ≤ max_attempts`, with a strict bound while the task can still be
leased (Queued or RetryScheduled) and at least one attempt once Running. -/
def AInv (s : QState) : Prop :=
  ∀ k r, alookup k s.records = some r →
    r.attempts ≤ r.max_attempts ∧
    (r.state = TaskState.Queued ∨ r.state = TaskState.RetryScheduled →
      r.attempts < r.max_attempts) ∧
    (r.state = TaskState.Running → 1 ≤ r.attempts)

/-- Full configuration invariant: the state invariant, every outstanding
lease holds a Running record, and no two leases share a task. -/
def CInv (c : Config) : Prop :=
  SInv c.state ∧
  (∀ l ∈ c.leases, ∃ r, alookup l.task_id c.state.records = some r ∧
    r.state = TaskState.Running) ∧
  (c.leases.map Lease.task_id).Nodup

theorem SInv_transfer (s s' : QState) (hrec : s'.records = s.records)
    (hg : s'.dependency_graph = s.dependency_graph)
    (hn : s'.next_task_id = s.next_task_id)
    (hsub : ∀ t ∈ s'.ready, t ∈ s.ready) (hnd : s'.ready.Nodup)
    (hs : SInv s) : SInv s' := by
  obtain ⟨h1, h2, _, h4, h5⟩ := hs
  refine ⟨hg.trans h1, ?_, hnd, ?_, ?_⟩
  · intro t ht
    rw [hrec]
    exact h2 t (hsub t ht)
  · intro k r hk
    rw [hrec] at hk
    rw [hn]
    exact h4 k r hk
  · intro k r hk
    rw [hrec] at hk
    exact h5 k r hk

theorem AInv_transfer (s s' : QState) (hrec : s'.records = s.records)
    (hs : AInv s) : AInv s' := by
  intro k r hk
  rw [hrec] at hk
  exact hs k r hk

theorem SInv_push (s s' : QState) (k : TaskId) (v : TaskRecord)
    (hrec : s'.records = ainsert k v s.records)
    (hready : s'.ready = s.ready ++ [k])
    (hg : s'.dependency_graph = s.dependency_graph)
    (hn : s.next_task_id ≤ s'.next_task_id) (hkn : k < s'.next_task_id)
    (hfresh : alookup k s.records = none)
    (hstate : v.state = TaskState.Queued) (hdep : v.depends_on = [])
    (hs : SInv s) : SInv s' := by
  obtain ⟨h1, h2, h3, h4, h5⟩ := hs
  have hnotin : k ∉ s.ready := by
    intro hm
    obtain ⟨r, hr, -⟩ := h2 k hm
    rw [hfresh] at hr
    cases hr
  refine ⟨hg.trans h1, ?_, ?_, ?_, ?_⟩
  · intro t ht
    rw [hready] at ht
    rw [hrec]
    rcases List.mem_append.mp ht with hin | hone
    · obtain ⟨r, hr, hq⟩ := h2 t hin
      have hne : t ≠ k := by
        intro he
        rw [he, hfresh] at hr
        cases hr
      exact ⟨r, by rw [alookup_ainsert_ne _ _ _ _ hne]; exact hr, hq⟩
    · have ht1 : t = k := by simpa using hone
      subst ht1
      exact ⟨v, alookup_ainsert_self _ _ _, hstate⟩
  · rw [hready, List.nodup_append]
    refine ⟨h3, List.nodup_singleton _, ?_⟩
    intro a ha hb
    have hak : a = k := by simpa using hb
    rw [hak] at ha
    exact hnotin ha
  · intro k0 r hk0
    rw [hrec] at hk0
    rcases alookup_ainsert_some _ _ _ _ _ hk0 with heq | ⟨r0, hr0⟩
    · rw [heq]
      exact hkn
    · exact lt_of_lt_of_le (h4 k0 r0 hr0) hn
  · intro k0 r hk0
    rw [hrec] at hk0
    by_cases hke : k0 = k
    · subst hke
      rw [alookup_ainsert_self] at hk0
      cases hk0
      exact hdep
    · rw [alookup_ainsert_ne _ _ _ _ hke] at hk0
      exact h5 k0 r hk0

theorem AInv_push (s s' : QState) (k : TaskId) (v : TaskRecord)
    (hrec : s'.records = ainsert k v s.records)
    (hv1 : v.attempts ≤ v.max_attempts)
    (hv2 : v.state = TaskState.Queued ∨ v.state = TaskState.RetryScheduled →
      v.attempts < v.max_attempts)
    (hv3 : v.state = TaskState.Running → 1 ≤ v.attempts)
    (ha : AInv s) : AInv s' := by
  intro k0 r hk0
  rw [hrec] at hk0
  by_cases hke : k0 = k
  · subst hke
    rw [alookup_ainsert_self] at hk0
    cases hk0
    exact ⟨hv1, hv2, hv3⟩
  · rw [alookup_ainsert_ne _ _ _ _ hke] at hk0
    exact ha k0 r hk0

theorem enqueue_inv (env : TaskEnvelope) (now : Time) (s : QState) (hs : SInv s) :
    SInv (QState.enqueue env now s) ∧
    (∀ t r, alookup t s.records = some r →
      alookup t (QState.enqueue env now s).records = some r) ∧
    (AInv s → AInv (QState.enqueue env now s)) := by
  have hfresh : alookup s.next_task_id s.records = none := by
    cases hl : alookup s.next_task_id s.records with
    | none => rfl
    | some r => exact absurd (hs.2.2.2.1 _ _ hl) (lt_irrefl _)
  refine ⟨?_, ?_, ?_⟩
  · exact SInv_push s _ s.next_task_id (TaskRecord.new now env 5) rfl rfl rfl
      (Nat.le_succ _) (Nat.lt_succ_self _) hfresh rfl rfl hs
  · intro t r hr
    have hne : t ≠ s.next_task_id := by
      intro he
      exact absurd (hs.2.2.2.1 t r hr) (by rw [he]; exact lt_irrefl _)
    show alookup t (ainsert s.next_task_id (TaskRecord.new now env 5) s.records) = some r
    rw [alookup_ainsert_ne _ _ _ _ hne]
    exact hr
  · intro ha
    exact AInv_push s _ s.next_task_id (TaskRecord.new now env 5) rfl
      (Nat.le_of_lt (by exact Nat.lt_of_sub_eq_succ rfl))
      (fun _ => by exact Nat.lt_of_sub_eq_succ rfl)
      (fun h => TaskState.noConfusion h) ha

theorem cancel_job_fields (j : JobId) (now : Time) (s s' : QState)
    (h : QState.cancel_job j now s = some s') :
    s'.records = s.records ∧ s'.ready = s.ready ∧
    s'.dependency_graph = s.dependency_graph ∧
    s'.next_task_id = s.next_task_id := by
  unfold QState.cancel_job at h
  cases hl : alookup j s.jobs with
  | none =>
    rw [hl] at h
    cases h
  | some job =>
    rw [hl] at h
    injection h with h2
    subst h2
    exact ⟨rfl, rfl, rfl, rfl⟩

theorem addJobTasks_inv (job_id : JobId) (ma : Nat) (now : Time) :
    ∀ (specs : List TaskSpec) (s : QState), SInv s →
      SInv (QState.addJobTasks job_id ma now specs s) ∧
      (∀ t r, alookup t s.records = some r →
        alookup t (QState.addJobTasks job_id ma now specs s).records = some r) ∧
      ((AInv s ∧ 1 ≤ ma) → AInv (QState.addJobTasks job_id ma now specs s)) := by
  intro specs
  induction specs with
  | nil =>
    intro s hs
    exact ⟨hs, fun t r hr => hr, fun h => h.1⟩
  | cons ts rest ih =>
    intro s hs
    have hstep : QState.addJobTasks job_id ma now (ts :: rest) s =
        QState.addJobTasks job_id ma now rest
          { s with
              next_task_id := s.next_task_id + 1
              records := ainsert s.next_task_id
                (TaskRecord.new_with_job now
                  { task_id := s.next_task_id, task_type := ts.task_type,
                    payload := ts.payload } ma job_id) s.records
              ready := s.ready ++ [s.next_task_id]
              jobs := amodify job_id (JobRecord.add_task now s.next_task_id) s.jobs } := rfl
    have hfresh : alookup s.next_task_id s.records = none := by
      cases hl : alookup s.next_task_id s.records with
      | none => rfl
      | some r => exact absurd (hs.2.2.2.1 _ _ hl) (lt_irrefl _)
    have hs2 : SInv
        { s with
            next_task_id := s.next_task_id + 1
            records := ainsert s.next_task_id
              (TaskRecord.new_with_job now
                { task_id := s.next_task_id, task_type := ts.task_type,
                  payload := ts.payload } ma job_id) s.records
            ready := s.ready ++ [s.next_task_id]
            jobs := amodify job_id (JobRecord.add_task now s.next_task_id) s.jobs } :=
      SInv_push s _ s.next_task_id _ rfl rfl rfl (Nat.le_succ _) (Nat.lt_succ_self _)
        hfresh rfl rfl hs
    obtain ⟨ihS, ihF, ihA⟩ := ih _ hs2
    refine ⟨?_, ?_, ?_⟩
    · rw [hstep]
      exact ihS
    · intro t r hr
      rw [hstep]
      apply ihF
      have hne : t ≠ s.next_task_id := by
        intro he
        exact absurd (hs.2.2.2.1 t r hr) (by rw [he]; exact lt_irrefl _)
      show alookup t (ainsert s.next_task_id _ s.records) = some r
      rw [alookup_ainsert_ne _ _ _ _ hne]
      exact hr
    · intro hA
      rw [hstep]
      apply ihA
      refine ⟨AInv_push s _ s.next_task_id _ rfl (Nat.zero_le _)
        (fun _ => hA.2) (fun h => TaskState.noConfusion h) hA.1, hA.2⟩

theorem submit_inv (spec : JobSpec) (now : Time) (s : QState) (hs : SInv s) :
    SInv (QState.submit_job spec now s).2 ∧
    (∀ t r, alookup t s.records = some r →
      alookup t (QState.submit_job spec now s).2.records = some r) ∧
    ((AInv s ∧ 1 ≤ spec.budget.max_attempts_per_task) →
      AInv (QState.submit_job spec now s).2) := by
  have hsub : (QState.submit_job spec now s).2 =
      QState.addJobTasks s.next_job_id spec.budget.max_attempts_per_task now spec.tasks
        { s with
            next_job_id := s.next_job_id + 1
            jobs := ainsert s.next_job_id (JobRecord.new now s.next_job_id spec) s.jobs } := rfl
  have hs1 : SInv
      { s with
          next_job_id := s.next_job_id + 1
          jobs := ainsert s.next_job_id (JobRecord.new now s.next_job_id spec) s.jobs } :=
    SInv_transfer s _ rfl rfl rfl (fun t ht => ht) hs.2.2.1 hs
  obtain ⟨hS, hF, hA⟩ := addJobTasks_inv _ _ _ spec.tasks _ hs1
  rw [hsub]
  exact ⟨hS, fun t r hr => hF t r hr,
    fun h => hA ⟨AInv_transfer _ _ rfl h.1, h.2⟩⟩

theorem promoteStep_inv (now : Time) (entry : Sched) (rest : List Sched) (s : QState)
    (hs : SInv s) : SInv (QState.promoteStep now entry rest s) ∧
    (AInv s → AInv (QState.promoteStep now entry rest s)) := by
  unfold QState.promoteStep
  cases hx : alookup entry.task_id s.records with
  | none =>
    dsimp only
    exact ⟨SInv_transfer s _ rfl rfl rfl (fun t ht => ht) hs.2.2.1 hs,
      fun ha => AInv_transfer s _ rfl ha⟩
  | some record =>
    dsimp only
    by_cases hst : record.state = TaskState.RetryScheduled
    · rw [if_pos hst]
      have hnotin : entry.task_id ∉ s.ready := by
        intro hm
        obtain ⟨r, hr, hq⟩ := hs.2.1 _ hm
        rw [hx] at hr
        injection hr with he
        rw [← he] at hq
        rw [hq] at hst
        exact TaskState.noConfusion hst
      refine ⟨⟨hs.1, ?_, ?_, ?_, ?_⟩, ?_⟩
      · intro t ht
        have ht2 : t ∈ s.ready ++ [entry.task_id] := ht
        rcases List.mem_append.mp ht2 with hin | hone
        · obtain ⟨r, hr, hq⟩ := hs.2.1 t hin
          have hne : t ≠ entry.task_id := fun he => hnotin (he ▸ hin)
          refine ⟨r, ?_, hq⟩
          show alookup t (amodify entry.task_id (TaskRecord.requeue now) s.records) = some r
          rw [alookup_amodify_ne _ _ _ _ hne]
          exact hr
        · have ht1 : t = entry.task_id := by simpa using hone
          subst ht1
          refine ⟨TaskRecord.requeue now record, ?_, rfl⟩
          show alookup entry.task_id
            (amodify entry.task_id (TaskRecord.requeue now) s.records) = some _
          rw [alookup_amodify_self, hx]
          rfl
      · show (s.ready ++ [entry.task_id]).Nodup
        rw [List.nodup_append]
        refine ⟨hs.2.2.1, List.nodup_singleton _, ?_⟩
        intro a ha hb
        have hae : a = entry.task_id := by simpa using hb
        rw [hae] at ha
        exact hnotin ha
      · intro k r hk
        have hk2 : alookup k (amodify entry.task_id (TaskRecord.requeue now) s.records) =
            some r := hk
        obtain ⟨r0, hr0⟩ := alookup_amodify_some _ _ _ _ _ hk2
        exact hs.2.2.2.1 k r0 hr0
      · intro k r hk
        have hk2 : alookup k (amodify entry.task_id (TaskRecord.requeue now) s.records) =
            some r := hk
        by_cases hke : k = entry.task_id
        · subst hke
          rw [alookup_amodify_self, hx] at hk2
          injection hk2 with he
          rw [← he]
          show record.depends_on = []
          exact hs.2.2.2.2 entry.task_id record hx
        · rw [alookup_amodify_ne _ _ _ _ hke] at hk2
          exact hs.2.2.2.2 k r hk2
      · intro ha k r hk
        have hk2 : alookup k (amodify entry.task_id (TaskRecord.requeue now) s.records) =
            some r := hk
        by_cases hke : k = entry.task_id
        · subst hke
          rw [alookup_amodify_self, hx] at hk2
          injection hk2 with he
          rw [← he]
          obtain ⟨a1, a2, a3⟩ := ha entry.task_id record hx
          refine ⟨a1, ?_, ?_⟩
          · intro hq
            exact a2 (Or.inr hst)
          · intro hrun
            exact TaskState.noConfusion hrun
        · rw [alookup_amodify_ne _ _ _ _ hke] at hk2
          exact ha k r hk2
    · rw [if_neg hst]
      exact ⟨SInv_transfer s _ rfl rfl rfl (fun t ht => ht) hs.2.2.1 hs,
        fun ha => AInv_transfer s _ rfl ha⟩

theorem promoteLoop_inv (now : Time) :
    ∀ (fuel : Nat) (s : QState), SInv s →
      SInv (QState.promoteLoop fuel now s) ∧
      (AInv s → AInv (QState.promoteLoop fuel now s)) := by
  intro fuel
  induction fuel with
  | zero =>
    intro s hs
    exact ⟨hs, fun ha => ha⟩
  | succ n ih =>
    intro s hs
    unfold QState.promoteLoop
    cases hp : QState.popMinSched s.scheduled with
    | none => exact ⟨hs, fun ha => ha⟩
    | some p =>
      obtain ⟨entry, rest⟩ := p
      dsimp only
      by_cases ht : now < entry.next_run_at
      · rw [if_pos ht]
        exact ⟨hs, fun ha => ha⟩
      · rw [if_neg ht]
        obtain ⟨hS, hA⟩ := promoteStep_inv now entry rest s hs
        obtain ⟨ihS, ihA⟩ := ih _ hS
        exact ⟨ihS, fun ha => ihA (hA ha)⟩

theorem promote_inv (now : Time) (s : QState) (hs : SInv s) :
    SInv (s.promote_scheduled_tasks now) ∧
    (AInv s → AInv (s.promote_scheduled_tasks now)) :=
  promoteLoop_inv now _ s hs

theorem tryLease_case (now : Time) (s1 : QState) (t : TaskId) (rest : List TaskId)
    (hS1 : SInv s1) (hrd : s1.ready = t :: rest) :
    SInv (QState.tryLease t now { s1 with ready := rest }).1 ∧
    (AInv s1 → AInv (QState.tryLease t now { s1 with ready := rest }).1) ∧
    (∀ t0 r, alookup t0 s1.records = some r → r.state ≠ TaskState.Queued →
      alookup t0 (QState.tryLease t now { s1 with ready := rest }).1.records = some r) ∧
    (∀ l, (QState.tryLease t now { s1 with ready := rest }).2 = some l →
      (∃ r, alookup l.task_id (QState.tryLease t now { s1 with ready := rest }).1.records =
        some r ∧ r.state = TaskState.Running) ∧
      (∀ r1, alookup l.task_id s1.records = some r1 → r1.state ≠ TaskState.Running)) := by
  obtain ⟨rq, hrq, hq⟩ := hS1.2.1 t (by rw [hrd]; exact List.mem_cons_self _ _)
  have hnd := hS1.2.2.1
  rw [hrd, List.nodup_cons] at hnd
  have htl : QState.tryLease t now { s1 with ready := rest } =
      ({ s1 with
           ready := rest
           records := amodify t (TaskRecord.start_attempt now) s1.records },
        some { task_id := t, envelope := rq.envelope, retry_policy := s1.retry_policy }) := by
    unfold QState.tryLease
    rw [show alookup t ({ s1 with ready := rest } : QState).records = some rq from hrq]
  rw [htl]
  refine ⟨⟨hS1.1, ?_, hnd.2, ?_, ?_⟩, ?_, ?_, ?_⟩
  · intro x hx
    have hx2 : x ∈ rest := hx
    obtain ⟨r, hr, hqx⟩ := hS1.2.1 x (by rw [hrd]; exact List.mem_cons_of_mem _ hx2)
    have hne : x ≠ t := fun he => hnd.1 (he ▸ hx2)
    refine ⟨r, ?_, hqx⟩
    show alookup x (amodify t (TaskRecord.start_attempt now) s1.records) = some r
    rw [alookup_amodify_ne _ _ _ _ hne]
    exact hr
  · intro k r hk
    have hk2 : alookup k (amodify t (TaskRecord.start_attempt now) s1.records) = some r := hk
    obtain ⟨r0, hr0⟩ := alookup_amodify_some _ _ _ _ _ hk2
    exact hS1.2.2.2.1 k r0 hr0
  · intro k r hk
    have hk2 : alookup k (amodify t (TaskRecord.start_attempt now) s1.records) = some r := hk
    by_cases hke : k = t
    · rw [hke] at hk2
      rw [alookup_amodify_self, hrq] at hk2
      injection hk2 with he
      rw [← he]
      show rq.depends_on = []
      exact hS1.2.2.2.2 t rq hrq
    · rw [alookup_amodify_ne _ _ _ _ hke] at hk2
      exact hS1.2.2.2.2 k r hk2
  · intro ha k r hk
    have hk2 : alookup k (amodify t (TaskRecord.start_attempt now) s1.records) = some r := hk
    by_cases hke : k = t
    · rw [hke] at hk2
      rw [alookup_amodify_self, hrq] at hk2
      injection hk2 with he
      rw [← he]
      obtain ⟨a1, a2, a3⟩ := ha t rq hrq
      have hlt : rq.attempts < rq.max_attempts := a2 (Or.inl hq)
      refine ⟨?_, ?_, ?_⟩
      · show rq.attempts + 1 ≤ rq.max_attempts
        omega
      · intro hcon
        rcases hcon with hc | hc
        · exact TaskState.noConfusion hc
        · exact TaskState.noConfusion hc
      · intro hrun
        show 1 ≤ rq.attempts + 1
        omega
    · rw [alookup_amodify_ne _ _ _ _ hke] at hk2
      exact ha k r hk2
  · intro t0 r hr hq0
    have hne : t0 ≠ t := by
      intro he
      rw [he, hrq] at hr
      injection hr with he2
      apply hq0
      rw [← he2]
      exact hq
    show alookup t0 (amodify t (TaskRecord.start_attempt now) s1.records) = some r
    rw [alookup_amodify_ne _ _ _ _ hne]
    exact hr
  · intro l hl
    have hl2 : ({ task_id := t, envelope := rq.envelope, retry_policy := s1.retry_policy } : Lease) = l := by
      injection hl with h
    refine ⟨⟨TaskRecord.start_attempt now rq, ?_, rfl⟩, ?_⟩
    · rw [← hl2]
      show alookup t (amodify t (TaskRecord.start_attempt now) s1.records) = some _
      rw [alookup_amodify_self, hrq]
      rfl
    · intro r1 h1
      rw [← hl2] at h1
      have h2 : alookup t s1.records = some r1 := h1
      rw [hrq] at h2
      injection h2 with he
      rw [← he, hq]
      intro hc
      exact TaskState.noConfusion hc

theorem leaseLoop_inv (now : Time) :
    ∀ (fuel : Nat) (s : QState), SInv s →
      SInv (QState.leaseLoop fuel now s).1 ∧
      (AInv s → AInv (QState.leaseLoop fuel now s).1) ∧
      (∀ t r, alookup t s.records = some r → r.state ≠ TaskState.Queued →
        r.state ≠ TaskState.RetryScheduled →
        alookup t (QState.leaseLoop fuel now s).1.records = some r) ∧
      (∀ l, (QState.leaseLoop fuel now s).2 = some l →
        (∃ r, alookup l.task_id (QState.leaseLoop fuel now s).1.records = some r ∧
          r.state = TaskState.Running) ∧
        (∀ r0, alookup l.task_id s.records = some r0 →
          r0.state ≠ TaskState.Running)) := by
  intro fuel
  induction fuel with
  | zero =>
    intro s hs
    refine ⟨hs, fun ha => ha, fun t r hr _ _ => hr, ?_⟩
    intro l hl
    exact Option.noConfusion hl
  | succ n ih =>
    intro s hs
    obtain ⟨hS1, hA1⟩ := promote_inv now s hs
    have hframe1 : ∀ t r, alookup t s.records = some r →
        r.state ≠ TaskState.RetryScheduled →
        alookup t (s.promote_scheduled_tasks now).records = some r :=
      fun t r hr hne => promote_keep now s t r hr hne
    have hback : ∀ (t : TaskId),
        (∀ r1, alookup t (s.promote_scheduled_tasks now).records = some r1 →
          r1.state ≠ TaskState.Running) →
        ∀ r0, alookup t s.records = some r0 → r0.state ≠ TaskState.Running := by
      intro t hmid r0 h0
      rcases promote_records now s t with heq | ⟨r2, hr2, hst2, heq⟩
      · apply hmid
        rw [heq]
        exact h0
      · rw [h0] at hr2
        injection hr2 with he
        rw [← he] at hst2
        intro hc
        rw [hst2] at hc
        exact TaskState.noConfusion hc
    unfold QState.leaseLoop
    dsimp only
    cases hrd : (s.promote_scheduled_tasks now).ready with
    | nil =>
      refine ⟨hS1, fun ha => hA1 ha, ?_, ?_⟩
      · intro t r hr hq hrs
        exact hframe1 t r hr hrs
      · intro l hl
        exact Option.noConfusion hl
    | cons t rest =>
      dsimp only
      cases hjt : (alookup t (s.promote_scheduled_tasks now).records).bind
          (fun r => r.job_id) with
      | some job_id =>
        dsimp only
        cases hlj : alookup job_id (s.promote_scheduled_tasks now).jobs with
        | some job =>
          dsimp only
          by_cases hdl : job.is_deadline_exceeded now = true
          · rw [if_pos hdl]
            have hSA : SInv
                { s.promote_scheduled_tasks now with
                    ready := rest,
                    jobs := amodify job_id (JobRecord.mark_stuck now)
                      (s.promote_scheduled_tasks now).jobs } := by
              refine SInv_transfer (s.promote_scheduled_tasks now) _ rfl rfl rfl ?_ ?_ hS1
              · intro x hx
                have hx2 : x ∈ rest := hx
                rw [hrd]
                exact List.mem_cons_of_mem _ hx2
              · have hnd := hS1.2.2.1
                rw [hrd, List.nodup_cons] at hnd
                exact hnd.2
            obtain ⟨ih1, ih2, ih3, ih4⟩ := ih _ hSA
            refine ⟨ih1, ?_, ?_, ?_⟩
            · intro ha
              exact ih2 (AInv_transfer _ _ rfl (hA1 ha))
            · intro t0 r hr hq hrs
              exact ih3 t0 r (hframe1 t0 r hr hrs) hq hrs
            · intro l hl
              obtain ⟨hrun, hnr⟩ := ih4 l hl
              exact ⟨hrun, fun r0 h0 => hback l.task_id (fun r1 h1 => hnr r1 h1) r0 h0⟩
          · rw [if_neg hdl]
            by_cases hcl : job.state = JobState.Cancelled
            · rw [if_pos hcl]
              have hSB : SInv { s.promote_scheduled_tasks now with ready := rest } := by
                refine SInv_transfer (s.promote_scheduled_tasks now) _ rfl rfl rfl ?_ ?_ hS1
                · intro x hx
                  have hx2 : x ∈ rest := hx
                  rw [hrd]
                  exact List.mem_cons_of_mem _ hx2
                · have hnd := hS1.2.2.1
                  rw [hrd, List.nodup_cons] at hnd
                  exact hnd.2
              obtain ⟨ih1, ih2, ih3, ih4⟩ := ih _ hSB
              refine ⟨ih1, ?_, ?_, ?_⟩
              · intro ha
                exact ih2 (AInv_transfer _ _ rfl (hA1 ha))
              · intro t0 r hr hq hrs
                exact ih3 t0 r (hframe1 t0 r hr hrs) hq hrs
              · intro l hl
                obtain ⟨hrun, hnr⟩ := ih4 l hl
                exact ⟨hrun, fun r0 h0 => hback l.task_id (fun r1 h1 => hnr r1 h1) r0 h0⟩
            · rw [if_neg hcl]
              obtain ⟨c1, c2, c3, c4⟩ :=
                tryLease_case now (s.promote_scheduled_tasks now) t rest hS1 hrd
              refine ⟨c1, fun ha => c2 (hA1 ha), ?_, ?_⟩
              · intro t0 r hr hq hrs
                exact c3 t0 r (hframe1 t0 r hr hrs) hq
              · intro l hl
                obtain ⟨hrun, hnr⟩ := c4 l hl
                exact ⟨hrun, fun r0 h0 => hback l.task_id hnr r0 h0⟩
        | none =>
          dsimp only
          obtain ⟨c1, c2, c3, c4⟩ :=
            tryLease_case now (s.promote_scheduled_tasks now) t rest hS1 hrd
          refine ⟨c1, fun ha => c2 (hA1 ha), ?_, ?_⟩
          · intro t0 r hr hq hrs
            exact c3 t0 r (hframe1 t0 r hr hrs) hq
          · intro l hl
            obtain ⟨hrun, hnr⟩ := c4 l hl
            exact ⟨hrun, fun r0 h0 => hback l.task_id hnr r0 h0⟩
      | none =>
        dsimp only
        obtain ⟨c1, c2, c3, c4⟩ :=
          tryLease_case now (s.promote_scheduled_tasks now) t rest hS1 hrd
        refine ⟨c1, fun ha => c2 (hA1 ha), ?_, ?_⟩
        · intro t0 r hr hq hrs
          exact c3 t0 r (hframe1 t0 r hr hrs) hq
        · intro l hl
          obtain ⟨hrun, hnr⟩ := c4 l hl
          exact ⟨hrun, fun r0 h0 => hback l.task_id hnr r0 h0⟩

theorem lease_inv (now : Time) (s : QState) (hs : SInv s) :
    SInv (s.lease now).1 ∧
    (AInv s → AInv (s.lease now).1) ∧
    (∀ t r, alookup t s.records = some r → r.state ≠ TaskState.Queued →
      r.state ≠ TaskState.RetryScheduled →
      alookup t (s.lease now).1.records = some r) ∧
    (∀ l, (s.lease now).2 = some l →
      (∃ r, alookup l.task_id (s.lease now).1.records = some r ∧
        r.state = TaskState.Running) ∧
      (∀ r0, alookup l.task_id s.records = some r0 →
        r0.state ≠ TaskState.Running)) :=
  leaseLoop_inv now _ s hs

theorem SInv_amod_lease (s s' : QState) (lt : TaskId) (f : TaskRecord → TaskRecord)
    (hrec : s'.records = amodify lt f s.records)
    (hready : s'.ready = s.ready)
    (hg : s'.dependency_graph = s.dependency_graph)
    (hn : s'.next_task_id = s.next_task_id)
    (rr : TaskRecord) (hrr : alookup lt s.records = some rr)
    (hrun2 : rr.state = TaskState.Running)
    (hdep : (f rr).depends_on = rr.depends_on)
    (hs : SInv s) : SInv s' := by
  refine ⟨hg.trans hs.1, ?_, hready ▸ hs.2.2.1, ?_, ?_⟩
  · intro x hx
    rw [hready] at hx
    obtain ⟨r, hr, hqx⟩ := hs.2.1 x hx
    have hne : x ≠ lt := by
      intro he
      rw [he, hrr] at hr
      injection hr with he2
      rw [← he2] at hqx
      rw [hqx] at hrun2
      exact TaskState.noConfusion hrun2
    refine ⟨r, ?_, hqx⟩
    rw [hrec, alookup_amodify_ne _ _ _ _ hne]
    exact hr
  · intro k r hk
    rw [hrec] at hk
    obtain ⟨r0, hr0⟩ := alookup_amodify_some _ _ _ _ _ hk
    rw [hn]
    exact hs.2.2.2.1 k r0 hr0
  · intro k r hk
    rw [hrec] at hk
    by_cases hke : k = lt
    · rw [hke, alookup_amodify_self, hrr] at hk
      injection hk with he
      rw [← he, hdep]
      exact hs.2.2.2.2 lt rr hrr
    · rw [alookup_amodify_ne _ _ _ _ hke] at hk
      exact hs.2.2.2.2 k r hk

theorem AInv_amod (s s' : QState) (lt : TaskId) (f : TaskRecord → TaskRecord)
    (hrec : s'.records = amodify lt f s.records)
    (rr : TaskRecord) (hrr : alookup lt s.records = some rr)
    (hf : AInv s → (f rr).attempts ≤ (f rr).max_attempts ∧
      ((f rr).state = TaskState.Queued ∨ (f rr).state = TaskState.RetryScheduled →
        (f rr).attempts < (f rr).max_attempts) ∧
      ((f rr).state = TaskState.Running → 1 ≤ (f rr).attempts))
    (ha : AInv s) : AInv s' := by
  intro k r hk
  rw [hrec] at hk
  by_cases hke : k = lt
  · rw [hke, alookup_amodify_self, hrr] at hk
    injection hk with he
    rw [← he]
    exact hf ha
  · rw [alookup_amodify_ne _ _ _ _ hke] at hk
    exact ha k r hk

theorem ack_eq_core_of_empty (l : Lease) (now : Time) (s : QState)
    (hg : s.dependency_graph = DependencyGraph.new) :
    QState.ack l now s = ackCore l now s := by
  show QState.resolveWaiters l.task_id (s.dependency_graph.get_waiting_tasks l.task_id)
    (ackCore l now s) = ackCore l now s
  rw [hg]
  rfl

theorem ack_inv (l : Lease) (now : Time) (s : QState) (hs : SInv s)
    (hrun : ∃ r, alookup l.task_id s.records = some r ∧ r.state = TaskState.Running) :
    SInv (QState.ack l now s) ∧
    (∀ t r, alookup t s.records = some r → t ≠ l.task_id →
      alookup t (QState.ack l now s).records = some r) ∧
    (AInv s → AInv (QState.ack l now s)) := by
  obtain ⟨rr, hrr, hrun2⟩ := hrun
  rw [ack_eq_core_of_empty l now s hs.1]
  refine ⟨SInv_amod_lease s _ l.task_id (TaskRecord.mark_succeeded now)
    rfl rfl rfl rfl rr hrr hrun2 rfl hs, ?_, ?_⟩
  · intro t r hr hne
    show alookup t (amodify l.task_id (TaskRecord.mark_succeeded now) s.records) = some r
    rw [alookup_amodify_ne _ _ _ _ hne]
    exact hr
  · intro ha
    refine AInv_amod s _ l.task_id (TaskRecord.mark_succeeded now) rfl rr hrr ?_ ha
    intro ha2
    obtain ⟨a1, a2, a3⟩ := ha2 l.task_id rr hrr
    refine ⟨a1, ?_, ?_⟩
    · intro hcon
      rcases hcon with hc | hc
      · exact TaskState.noConfusion hc
      · exact TaskState.noConfusion hc
    · intro hc
      exact TaskState.noConfusion hc

theorem fail_inv (l : Lease) (error : String) (now : Time) (s : QState) (hs : SInv s)
    (hrun : ∃ r, alookup l.task_id s.records = some r ∧ r.state = TaskState.Running) :
    SInv (QState.fail l error now s) ∧
    (∀ t r, alookup t s.records = some r → t ≠ l.task_id →
      alookup t (QState.fail l error now s).records = some r) ∧
    (AInv s → AInv (QState.fail l error now s)) := by
  obtain ⟨rr, hrr, hrun2⟩ := hrun
  unfold QState.fail
  dsimp only
  rw [show alookup l.task_id s.allocate_attempt_id.2.records = some rr from hrr]
  dsimp only
  by_cases hcase : rr.max_attempts ≤ rr.attempts
  · rw [if_pos hcase]
    refine ⟨SInv_amod_lease s _ l.task_id (TaskRecord.mark_dead now error)
      rfl rfl rfl rfl rr hrr hrun2 rfl hs, ?_, ?_⟩
    · intro t r hr hne
      show alookup t (amodify l.task_id (TaskRecord.mark_dead now error) s.records) = some r
      rw [alookup_amodify_ne _ _ _ _ hne]
      exact hr
    · intro ha
      refine AInv_amod s _ l.task_id (TaskRecord.mark_dead now error) rfl rr hrr ?_ ha
      intro ha2
      obtain ⟨a1, a2, a3⟩ := ha2 l.task_id rr hrr
      refine ⟨a1, ?_, ?_⟩
      · intro hcon
        rcases hcon with hc | hc
        · exact TaskState.noConfusion hc
        · exact TaskState.noConfusion hc
      · intro hc
        exact TaskState.noConfusion hc
  · rw [if_neg hcase]
    refine ⟨SInv_amod_lease s _ l.task_id
      (TaskRecord.schedule_retry now (now + l.retry_policy.next_delay rr.attempts) error)
      rfl rfl rfl rfl rr hrr hrun2 rfl hs, ?_, ?_⟩
    · intro t r hr hne
      show alookup t (amodify l.task_id
        (TaskRecord.schedule_retry now (now + l.retry_policy.next_delay rr.attempts) error)
        s.records) = some r
      rw [alookup_amodify_ne _ _ _ _ hne]
      exact hr
    · intro ha
      refine AInv_amod s _ l.task_id
        (TaskRecord.schedule_retry now (now + l.retry_policy.next_delay rr.attempts) error)
        rfl rr hrr ?_ ha
      intro ha2
      obtain ⟨a1, a2, a3⟩ := ha2 l.task_id rr hrr
      refine ⟨a1, ?_, ?_⟩
      · intro hcon
        show rr.attempts < rr.max_attempts
        omega
      · intro hc
        exact TaskState.noConfusion hc

theorem addChildRecords_inv (job_id : JobId) (parent : TaskId) (ma : Nat) (now : Time) :
    ∀ (pairs : List (TaskSpec × TaskId)) (s : QState), SInv s →
      (∀ q ∈ pairs, ∀ k r, alookup k s.records = some r → k < q.2) →
      (∀ q ∈ pairs, q.2 < s.next_task_id) →
      (pairs.map Prod.snd).Pairwise (fun a b => a < b) →
      SInv (QState.addChildRecords job_id parent ma now pairs s) ∧
      (∀ t r, alookup t s.records = some r →
        alookup t (QState.addChildRecords job_id parent ma now pairs s).records = some r) ∧
      ((AInv s ∧ 1 ≤ ma) → AInv (QState.addChildRecords job_id parent ma now pairs s)) := by
  intro pairs
  induction pairs with
  | nil =>
    intro s hs _ _ _
    exact ⟨hs, fun t r hr => hr, fun h => h.1⟩
  | cons q rest ih =>
    obtain ⟨spec, tid⟩ := q
    intro s hs hfr hlt hpw
    have hstep : QState.addChildRecords job_id parent ma now ((spec, tid) :: rest) s =
        QState.addChildRecords job_id parent ma now rest
          { s with
              records := ainsert tid
                (TaskRecord.new_child now
                  { task_id := tid, task_type := spec.task_type, payload := spec.payload }
                  ma job_id parent) s.records
              ready := s.ready ++ [tid] } := rfl
    have hfresh : alookup tid s.records = none := by
      cases hl : alookup tid s.records with
      | none => rfl
      | some r =>
        exact absurd (hfr (spec, tid) (List.mem_cons_self _ _) _ _ hl) (lt_irrefl _)
    have hs2 : SInv
        { s with
            records := ainsert tid
              (TaskRecord.new_child now
                { task_id := tid, task_type := spec.task_type, payload := spec.payload }
                ma job_id parent) s.records
            ready := s.ready ++ [tid] } :=
      SInv_push s _ tid _ rfl rfl rfl (Nat.le_refl _)
        (hlt _ (List.mem_cons_self _ _)) hfresh rfl rfl hs
    simp only [List.map_cons, List.pairwise_cons] at hpw
    have hfr2 : ∀ q2 ∈ rest, ∀ k r,
        alookup k (ainsert tid
          (TaskRecord.new_child now
            { task_id := tid, task_type := spec.task_type, payload := spec.payload }
            ma job_id parent) s.records) = some r → k < q2.2 := by
      intro q2 hq2 k r hk
      rcases alookup_ainsert_some _ _ _ _ _ hk with heq | ⟨r0, hr0⟩
      · rw [heq]
        exact hpw.1 q2.2 (List.mem_map_of_mem Prod.snd hq2)
      · exact hfr q2 (List.mem_cons_of_mem _ hq2) k r0 hr0
    have hlt2 : ∀ q2 ∈ rest, q2.2 < s.next_task_id :=
      fun q2 hq2 => hlt q2 (List.mem_cons_of_mem _ hq2)
    obtain ⟨ihS, ihF, ihA⟩ := ih _ hs2 hfr2 hlt2 hpw.2
    refine ⟨?_, ?_, ?_⟩
    · rw [hstep]
      exact ihS
    · intro t r hr
      rw [hstep]
      apply ihF
      have hne : t ≠ tid := by
        intro he
        rw [he, hfresh] at hr
        cases hr
      show alookup t (ainsert tid _ s.records) = some r
      rw [alookup_ainsert_ne _ _ _ _ hne]
      exact hr
    · intro hA
      rw [hstep]
      apply ihA
      exact ⟨AInv_push s _ tid _ rfl (Nat.zero_le _) (fun _ => hA.2)
        (fun h => TaskState.noConfusion h) hA.1, hA.2⟩

/-- Final bookkeeping state of `add_child_tasks`: the parent record gets its
`child_task_ids` set. -/
def withChildIds (M : QState) (lt : TaskId) (tids : List TaskId) : QState :=
  { M with records := amodify lt (fun p => { p with child_task_ids := tids }) M.records }

theorem child_final_facts (M : QState) (lt : TaskId) (tids : List TaskId)
    (rr : TaskRecord) (hrrM : alookup lt M.records = some rr)
    (hrun2 : rr.state = TaskState.Running) (hS : SInv M) :
    SInv (withChildIds M lt tids) ∧
    (∀ t r, alookup t M.records = some r → t ≠ lt →
      alookup t (withChildIds M lt tids).records = some r) ∧
    alookup lt (withChildIds M lt tids).records =
      some { rr with child_task_ids := tids } ∧
    (AInv M → AInv (withChildIds M lt tids)) := by
  refine ⟨SInv_amod_lease M _ lt _ rfl rfl rfl rfl rr hrrM hrun2 rfl hS,
    ?_, ?_, ?_⟩
  · intro t r hr hne
    show alookup t (amodify lt (fun p => { p with child_task_ids := tids }) M.records) =
      some r
    rw [alookup_amodify_ne _ _ _ _ hne]
    exact hr
  · show alookup lt (amodify lt (fun p => { p with child_task_ids := tids }) M.records) =
      some _
    rw [alookup_amodify_self, hrrM]
    rfl
  · intro ha
    refine AInv_amod M _ lt _ rfl rr hrrM ?_ ha
    intro ha2
    obtain ⟨a1, a2, a3⟩ := ha2 lt rr hrrM
    exact ⟨a1, a2, a3⟩

theorem add_child_tasks_inv (l : Lease) (specs : List TaskSpec) (now : Time) (s : QState)
    (hs : SInv s) (rr : TaskRecord) (hrr : alookup l.task_id s.records = some rr)
    (hrun2 : rr.state = TaskState.Running) :
    ∀ ids s3, QState.add_child_tasks l specs now s = some (ids, s3) →
      SInv s3 ∧
      (∀ t r, alookup t s.records = some r → t ≠ l.task_id →
        alookup t s3.records = some r) ∧
      alookup l.task_id s3.records = some { rr with child_task_ids := ids } ∧
      ((AInv s ∧ 1 ≤ rr.max_attempts) → AInv s3) := by
  unfold QState.add_child_tasks
  rw [hrr]
  dsimp only
  cases hjid : rr.job_id with
  | none =>
    dsimp only
    intro ids s3 h
    exact Option.noConfusion h
  | some pj =>
    dsimp only
    intro ids s3 h
    injection h with h2
    rw [Prod.mk.injEq] at h2
    obtain ⟨hida, hs3e⟩ := h2
    subst hida
    subst hs3e
    have hmem : ∀ x ∈ (List.range specs.length).map (fun i => s.next_task_id + i),
        s.next_task_id ≤ x ∧ x < s.next_task_id + specs.length := by
      intro x hx
      obtain ⟨i, hi, hxe⟩ := List.mem_map.mp hx
      have hi2 : i < specs.length := List.mem_range.mp hi
      have hxe2 : s.next_task_id + i = x := hxe
      omega
    have hs1 : SInv { s with next_task_id := s.next_task_id + specs.length } := by
      refine ⟨hs.1, hs.2.1, hs.2.2.1, ?_, hs.2.2.2.2⟩
      intro k r hk
      have hb := hs.2.2.2.1 k r hk
      show k < s.next_task_id + specs.length
      omega
    have hfr : ∀ q ∈ specs.zip ((List.range specs.length).map (fun i => s.next_task_id + i)),
        ∀ k r, alookup k
          ({ s with next_task_id := s.next_task_id + specs.length } : QState).records =
          some r → k < q.2 := by
      intro q hq k r hk
      have h1 : k < s.next_task_id := hs.2.2.2.1 k r hk
      have h2 := (hmem q.2 (List.of_mem_zip hq).2).1
      omega
    have hlt : ∀ q ∈ specs.zip ((List.range specs.length).map (fun i => s.next_task_id + i)),
        q.2 < ({ s with next_task_id := s.next_task_id + specs.length } : QState).next_task_id := by
      intro q hq
      exact (hmem q.2 (List.of_mem_zip hq).2).2
    have hpw : ((specs.zip ((List.range specs.length).map
        (fun i => s.next_task_id + i))).map Prod.snd).Pairwise (fun a b => a < b) := by
      rw [List.map_snd_zip]
      · exact List.Pairwise.map _ (fun a b hab => Nat.add_lt_add_left hab _)
          (List.pairwise_lt_range _)
      · rw [List.length_map, List.length_range]
    obtain ⟨cS, cF, cA⟩ := addChildRecords_inv pj l.task_id rr.max_attempts now
      (specs.zip ((List.range specs.length).map (fun i => s.next_task_id + i)))
      { s with next_task_id := s.next_task_id + specs.length } hs1 hfr hlt hpw
    have hrr1 : alookup l.task_id
        ({ s with next_task_id := s.next_task_id + specs.length } : QState).records =
        some rr := hrr
    have hrrM := cF l.task_id rr hrr1
    obtain ⟨f1, f2, f3, f4⟩ := child_final_facts _ l.task_id
      ((List.range specs.length).map (fun i => s.next_task_id + i)) rr hrrM hrun2 cS
    refine ⟨f1, ?_, ?_, ?_⟩
    · intro t r hr hne
      exact f2 t r (cF t r hr) hne
    · rw [show (some pj : Option JobId) = rr.job_id from hjid.symm]
      exact f3
    · intro hA
      exact f4 (cA ⟨AInv_transfer _ _ rfl hA.1, hA.2⟩)

theorem complete_inv (l : Lease) (outcome : Outcome) (decision : Decision) (now : Time)
    (s : QState) (hs : SInv s)
    (hrun : ∃ r, alookup l.task_id s.records = some r ∧ r.state = TaskState.Running) :
    SInv (QState.complete l outcome decision now s) ∧
    (∀ t r, alookup t s.records = some r → t ≠ l.task_id →
      alookup t (QState.complete l outcome decision now s).records = some r) ∧
    ((AInv s ∧ (∀ delay reason, decision = Decision.Retry delay reason →
        ∀ rr2, alookup l.task_id s.records = some rr2 →
          rr2.attempts < rr2.max_attempts)) →
      AInv (QState.complete l outcome decision now s)) := by
  obtain ⟨rr, hrr, hrun2⟩ := hrun
  unfold QState.complete
  dsimp only
  cases decision with
  | Retry delay reason =>
    dsimp only
    rw [show alookup l.task_id s.allocate_attempt_id.2.records = some rr from hrr]
    dsimp only
    refine ⟨SInv_amod_lease s _ l.task_id
      (TaskRecord.schedule_retry now (now + delay) reason)
      rfl rfl rfl rfl rr hrr hrun2 rfl hs, ?_, ?_⟩
    · intro t r hr hne
      show alookup t (amodify l.task_id
        (TaskRecord.schedule_retry now (now + delay) reason)
        s.allocate_attempt_id.2.records) = some r
      rw [alookup_amodify_ne _ _ _ _ hne]
      exact hr
    · intro hA
      refine AInv_amod s _ l.task_id
        (TaskRecord.schedule_retry now (now + delay) reason) rfl rr hrr ?_ hA.1
      intro ha2
      obtain ⟨a1, a2, a3⟩ := ha2 l.task_id rr hrr
      have hlt := hA.2 delay reason rfl rr hrr
      exact ⟨a1, fun hcon => hlt, fun hc => TaskState.noConfusion hc⟩
  | MarkDead reason =>
    dsimp only
    rw [show alookup l.task_id s.allocate_attempt_id.2.records = some rr from hrr]
    dsimp only
    refine ⟨SInv_amod_lease s _ l.task_id (TaskRecord.mark_dead now reason)
      rfl rfl rfl rfl rr hrr hrun2 rfl hs, ?_, ?_⟩
    · intro t r hr hne
      show alookup t (amodify l.task_id (TaskRecord.mark_dead now reason)
        s.allocate_attempt_id.2.records) = some r
      rw [alookup_amodify_ne _ _ _ _ hne]
      exact hr
    · intro hA
      refine AInv_amod s _ l.task_id (TaskRecord.mark_dead now reason) rfl rr hrr ?_ hA.1
      intro ha2
      obtain ⟨a1, a2, a3⟩ := ha2 l.task_id rr hrr
      refine ⟨a1, ?_, ?_⟩
      · intro hcon
        rcases hcon with hc | hc
        · exact TaskState.noConfusion hc
        · exact TaskState.noConfusion hc
      · intro hc
        exact TaskState.noConfusion hc
  | Decompose child_tasks reason =>
    dsimp only
    cases hact : QState.add_child_tasks l child_tasks now
        { s.allocate_attempt_id.2 with
            attempts := ainsert s.allocate_attempt_id.1
              (AttemptRecord.new now s.allocate_attempt_id.1 l.task_id l.envelope.payload
                outcome.artifacts outcome) s.allocate_attempt_id.2.attempts } with
    | none =>
      dsimp only
      exact ⟨SInv_transfer s _ rfl rfl rfl (fun t ht => ht) hs.2.2.1 hs,
        fun t r hr hne => hr, fun hA => AInv_transfer s _ rfl hA.1⟩
    | some p =>
      obtain ⟨ids, s3⟩ := p
      dsimp only
      obtain ⟨dS, dF, dL, dA⟩ := add_child_tasks_inv l child_tasks now
        { s.allocate_attempt_id.2 with
            attempts := ainsert s.allocate_attempt_id.1
              (AttemptRecord.new now s.allocate_attempt_id.1 l.task_id l.envelope.payload
                outcome.artifacts outcome) s.allocate_attempt_id.2.attempts }
        (SInv_transfer s _ rfl rfl rfl (fun t ht => ht) hs.2.2.1 hs) rr hrr hrun2
        ids s3 hact
      rw [dL]
      dsimp only
      refine ⟨SInv_amod_lease s3 _ l.task_id
        (fun r => { r with state := TaskState.Decomposed }) rfl rfl rfl rfl
        { rr with child_task_ids := ids } dL hrun2 rfl dS, ?_, ?_⟩
      · intro t r hr hne
        have h3 := dF t r hr hne
        show alookup t (amodify l.task_id
          (fun r => { r with state := TaskState.Decomposed }) s3.records) = some r
        rw [alookup_amodify_ne _ _ _ _ hne]
        exact h3
      · intro hA
        have h1le : 1 ≤ rr.max_attempts := by
          obtain ⟨a1, a2, a3⟩ := hA.1 l.task_id rr hrr
          have h4 := a3 hrun2
          omega
        have hA3 : AInv s3 := dA ⟨AInv_transfer s _ rfl hA.1, h1le⟩
        refine AInv_amod s3 _ l.task_id
          (fun r => { r with state := TaskState.Decomposed }) rfl
          { rr with child_task_ids := ids } dL ?_ hA3
        intro ha2
        obtain ⟨a1, a2, a3⟩ := ha2 l.task_id _ dL
        refine ⟨a1, ?_, ?_⟩
        · intro hcon
          rcases hcon with hc | hc
          · exact TaskState.noConfusion hc
          · exact TaskState.noConfusion hc
        · intro hc
          exact TaskState.noConfusion hc

theorem CInv_init (p : RetryPolicy) : CInv (initConfig p) := by
  refine ⟨⟨rfl, ?_, List.nodup_nil, ?_, ?_⟩, ?_, List.nodup_nil⟩
  · intro t ht
    cases ht
  · intro k r hk
    exact Option.noConfusion hk
  · intro k r hk
    exact Option.noConfusion hk
  · intro l hl
    cases hl

theorem CInv_step (c c' : Config) (hc : CInv c) (hstep : Step c c') : CInv c' := by
  obtain ⟨hS, hL, hN⟩ := hc
  cases hstep with
  | enqueue env now _ =>
    obtain ⟨eS, eF, eA⟩ := enqueue_inv env now c.state hS
    refine ⟨eS, ?_, hN⟩
    intro l hl
    obtain ⟨r, hr, hrun⟩ := hL l hl
    exact ⟨r, eF _ _ hr, hrun⟩
  | submit spec now _ =>
    obtain ⟨sS, sF, sA⟩ := submit_inv spec now c.state hS
    refine ⟨sS, ?_, hN⟩
    intro l hl
    obtain ⟨r, hr, hrun⟩ := hL l hl
    exact ⟨r, sF _ _ hr, hrun⟩
  | cancel job_id now _ s2 hcan =>
    obtain ⟨f1, f2, f3, f4⟩ := cancel_job_fields job_id now c.state s2 hcan
    refine ⟨SInv_transfer c.state s2 f1 f3 f4
      (fun t ht => by rw [f2] at ht; exact ht) (by rw [f2]; exact hS.2.2.1) hS, ?_, hN⟩
    intro l hl
    obtain ⟨r, hr, hrun⟩ := hL l hl
    refine ⟨r, ?_, hrun⟩
    rw [f1]
    exact hr
  | lease now _ s2 l hlease =>
    obtain ⟨c1, c2, c3, c4⟩ := lease_inv now c.state hS
    rw [hlease] at c1 c3 c4
    dsimp only at c1 c3 c4
    obtain ⟨⟨rnew, hrnew, hrunnew⟩, hnotrun⟩ := c4 l rfl
    refine ⟨c1, ?_, ?_⟩
    · intro x hx
      rcases List.mem_cons.mp hx with hxl | hxt
      · subst hxl
        exact ⟨rnew, hrnew, hrunnew⟩
      · obtain ⟨r, hr, hrun⟩ := hL x hxt
        refine ⟨r, ?_, hrun⟩
        exact c3 x.task_id r hr
          (by rw [hrun]; exact fun hc => TaskState.noConfusion hc)
          (by rw [hrun]; exact fun hc => TaskState.noConfusion hc)
    · show (l.task_id :: c.leases.map Lease.task_id).Nodup
      rw [List.nodup_cons]
      refine ⟨?_, hN⟩
      intro hmem
      obtain ⟨x, hx, hxe⟩ := List.mem_map.mp hmem
      obtain ⟨r, hr, hrun⟩ := hL x hx
      exact hnotrun r (by rw [← hxe]; exact hr) hrun
  | leaseNone now _ s2 hlease =>
    obtain ⟨c1, c2, c3, c4⟩ := lease_inv now c.state hS
    rw [hlease] at c1 c3
    dsimp only at c1 c3
    refine ⟨c1, ?_, hN⟩
    intro l hl
    obtain ⟨r, hr, hrun⟩ := hL l hl
    exact ⟨r, c3 l.task_id r hr
      (by rw [hrun]; exact fun hc => TaskState.noConfusion hc)
      (by rw [hrun]; exact fun hc => TaskState.noConfusion hc), hrun⟩
  | complete l outcome decision now _ hmem =>
    obtain ⟨cS, cF, cA⟩ := complete_inv l outcome decision now c.state hS (hL l hmem)
    have hlnd : c.leases.Nodup := List.Nodup.of_map _ hN
    refine ⟨cS, ?_, ?_⟩
    · intro x hx
      have hx0 : x ∈ c.leases := List.mem_of_mem_erase hx
      obtain ⟨r, hr, hrun⟩ := hL x hx0
      have hxl : x ≠ l := ((List.Nodup.mem_erase_iff hlnd).mp hx).1
      have hne : x.task_id ≠ l.task_id := by
        intro hee
        exact hxl (List.inj_on_of_nodup_map hN hx0 hmem hee)
      exact ⟨r, cF x.task_id r hr hne, hrun⟩
    · exact List.Nodup.sublist ((List.erase_sublist _ _).map _) hN
  | ack l now _ hmem =>
    obtain ⟨aS, aF, aA⟩ := ack_inv l now c.state hS (hL l hmem)
    have hlnd : c.leases.Nodup := List.Nodup.of_map _ hN
    refine ⟨aS, ?_, ?_⟩
    · intro x hx
      have hx0 : x ∈ c.leases := List.mem_of_mem_erase hx
      obtain ⟨r, hr, hrun⟩ := hL x hx0
      have hxl : x ≠ l := ((List.Nodup.mem_erase_iff hlnd).mp hx).1
      have hne : x.task_id ≠ l.task_id := by
        intro hee
        exact hxl (List.inj_on_of_nodup_map hN hx0 hmem hee)
      exact ⟨r, aF x.task_id r hr hne, hrun⟩
    · exact List.Nodup.sublist ((List.erase_sublist _ _).map _) hN
  | fail l error now _ hmem =>
    obtain ⟨fS, fF, fA⟩ := fail_inv l error now c.state hS (hL l hmem)
    have hlnd : c.leases.Nodup := List.Nodup.of_map _ hN
    refine ⟨fS, ?_, ?_⟩
    · intro x hx
      have hx0 : x ∈ c.leases := List.mem_of_mem_erase hx
      obtain ⟨r, hr, hrun⟩ := hL x hx0
      have hxl : x ≠ l := ((List.Nodup.mem_erase_iff hlnd).mp hx).1
      have hne : x.task_id ≠ l.task_id := by
        intro hee
        exact hxl (List.inj_on_of_nodup_map hN hx0 hmem hee)
      exact ⟨r, fF x.task_id r hr hne, hrun⟩
    · exact List.Nodup.sublist ((List.erase_sublist _ _).map _) hN

theorem Reachable_CInv (p : RetryPolicy) (c : Config) (h : Reachable p c) : CInv c := by
  induction h with
  | refl => exact CInv_init p
  | tail hab hbc ih => exact CInv_step _ _ ih hbc

/-! ## Claim C5: terminal states are absorbing -/

theorem step_keeps_terminal (b b' : Config) (hinv : CInv b) (hstep : Step b b')
    (t : TaskId) (r : TaskRecord) (hr : alookup t b.state.records = some r)
    (hterm : r.state.is_terminal = true) :
    alookup t b'.state.records = some r := by
  obtain ⟨hS, hL, hN⟩ := hinv
  cases hstep with
  | enqueue env now _ => exact (enqueue_inv env now b.state hS).2.1 t r hr
  | submit spec now _ => exact (submit_inv spec now b.state hS).2.1 t r hr
  | cancel job_id now _ s2 hcan =>
    show alookup t s2.records = some r
    rw [(cancel_job_fields job_id now b.state s2 hcan).1]
    exact hr
  | lease now _ s2 l hlease =>
    have hkeep := (lease_inv now b.state hS).2.2.1 t r hr
      (terminal_ne_queued hterm) (terminal_ne_retry hterm)
    rw [hlease] at hkeep
    exact hkeep
  | leaseNone now _ s2 hlease =>
    have hkeep := (lease_inv now b.state hS).2.2.1 t r hr
      (terminal_ne_queued hterm) (terminal_ne_retry hterm)
    rw [hlease] at hkeep
    exact hkeep
  | complete l outcome decision now _ hmem =>
    obtain ⟨rl, hrl, hrunl⟩ := hL l hmem
    have hne : t ≠ l.task_id := by
      intro he
      rw [he, hrl] at hr
      injection hr with he2
      rw [he2] at hrunl
      exact terminal_ne_running hterm hrunl
    exact (complete_inv l outcome decision now b.state hS (hL l hmem)).2.1 t r hr hne
  | ack l now _ hmem =>
    obtain ⟨rl, hrl, hrunl⟩ := hL l hmem
    have hne : t ≠ l.task_id := by
      intro he
      rw [he, hrl] at hr
      injection hr with he2
      rw [he2] at hrunl
      exact terminal_ne_running hterm hrunl
    exact (ack_inv l now b.state hS (hL l hmem)).2.1 t r hr hne
  | fail l error now _ hmem =>
    obtain ⟨rl, hrl, hrunl⟩ := hL l hmem
    have hne : t ≠ l.task_id := by
      intro he
      rw [he, hrl] at hr
      injection hr with he2
      rw [he2] at hrunl
      exact terminal_ne_running hterm hrunl
    exact (fail_inv l error now b.state hS (hL l hmem)).2.1 t r hr hne

/-- Claim C5: in every reachable execution, once a task record is in a
terminal state (Succeeded, Dead or Decomposed), no subsequent sequence of
public queue operations ever changes that record again — the whole record,
in particular its state, is preserved by every later step. -/
theorem C5_terminal_states_absorbing (p : RetryPolicy) (c c' : Config)
    (hreach : Reachable p c)
    (hsteps : Relation.ReflTransGen Step c c')
    (t : TaskId) (r : TaskRecord)
    (hr : alookup t c.state.records = some r)
    (hterm : r.state.is_terminal = true) :
    alookup t c'.state.records = some r := by
  induction hsteps with
  | refl => exact hr
  | tail hab hbc ih =>
    have hinvb := Reachable_CInv p _ (Relation.ReflTransGen.trans hreach hab)
    exact step_keeps_terminal _ _ hinvb hbc t r ih hterm

/-- Envelope of the single task in the C5 witness trace. -/
def c5Env : TaskEnvelope :=
  { task_id := 1, task_type := "t", payload := 0 }

/-- C5 witness trace: fresh queue. -/
def c5Cfg0 : Config := initConfig RetryPolicy.default_v1

/-- C5 witness trace: after enqueueing task 1 at time 0. -/
def c5Cfg1 : Config := { c5Cfg0 with state := c5Cfg0.state.enqueue c5Env 0 }

/-- The lease handed out for task 1 in the C5 witness trace. -/
def c5Lease : Lease :=
  { task_id := 1, envelope := c5Env, retry_policy := RetryPolicy.default_v1 }

/-- C5 witness trace: after leasing task 1. -/
def c5Cfg2 : Config :=
  { state := (c5Cfg1.state.lease 0).1, leases := c5Lease :: c5Cfg1.leases }

/-- C5 witness trace: after acking task 1 (now Succeeded). -/
def c5Cfg3 : Config :=
  { state := c5Cfg2.state.ack c5Lease 0, leases := c5Cfg2.leases.erase c5Lease }

/-- The Succeeded record of task 1 at the end of the C5 witness trace. -/
def c5Rec : TaskRecord :=
  TaskRecord.mark_succeeded 0 (TaskRecord.start_attempt 0 (TaskRecord.new 0 c5Env 5))

/-- C5 witness trace: one further enqueue after the task succeeded. -/
def c5Cfg4 : Config := { c5Cfg3 with state := c5Cfg3.state.enqueue c5Env 1 }

theorem c5_reach : Reachable RetryPolicy.default_v1 c5Cfg3 :=
  Relation.ReflTransGen.tail (Relation.ReflTransGen.tail (Relation.ReflTransGen.tail
    Relation.ReflTransGen.refl
    (Step.enqueue c5Env 0 c5Cfg0))
    (Step.lease 0 c5Cfg1 _ c5Lease rfl))
    (Step.ack c5Lease 0 c5Cfg2 (List.mem_cons_self _ _))

/-- Witness for C5: in the concrete enqueue–lease–ack trace, task 1 ends
Succeeded, and a further operation leaves its record untouched. -/
theorem C5_terminal_states_absorbing_witness :
    alookup 1 c5Cfg3.state.records = some c5Rec ∧
    c5Rec.state.is_terminal = true ∧
    alookup 1 c5Cfg4.state.records = some c5Rec :=
  ⟨rfl, rfl,
    C5_terminal_states_absorbing RetryPolicy.default_v1 c5Cfg3 c5Cfg4 c5_reach
      (Relation.ReflTransGen.single (Step.enqueue c5Env 1 c5Cfg3)) 1 c5Rec rfl rfl⟩

/-! ## Claim C6: ready-FIFO references -/

/-- Task spec of the single task in the C6 scenario. -/
def c6TaskSpec : TaskSpec :=
  { title := none, task_type := "t", payload := 0, dependencies_hint := none }

/-- Job spec of the C6 scenario (default budget). -/
def c6Spec : JobSpec := JobSpec.new [c6TaskSpec]

/-- C6 trace: fresh queue. -/
def c6Cfg0 : Config := initConfig RetryPolicy.default_v1

/-- C6 trace: after submitting the one-task job at time 0 (task 1 is Queued
and ready). -/
def c6Cfg1 : Config := { c6Cfg0 with state := (c6Cfg0.state.submit_job c6Spec 0).2 }

/-- C6 trace: the state produced by cancelling job 1. -/
def c6CancelState : QState :=
  { c6Cfg1.state with jobs := amodify 1 (JobRecord.mark_cancelled 0) c6Cfg1.state.jobs }

/-- C6 trace: after cancelling job 1. -/
def c6Cfg2 : Config := { c6Cfg1 with state := c6CancelState }

/-- C6 trace: after one lease pass, which pops task 1, sees the Cancelled
job and drops the entry without leasing or requeueing. -/
def c6Cfg3 : Config := { c6Cfg2 with state := (c6Cfg2.state.lease 0).1 }

theorem c6_reach1 : Reachable RetryPolicy.default_v1 c6Cfg1 :=
  Relation.ReflTransGen.single (Step.submit c6Spec 0 c6Cfg0)

theorem c6_reach : Reachable RetryPolicy.default_v1 c6Cfg3 :=
  Relation.ReflTransGen.tail (Relation.ReflTransGen.tail c6_reach1
    (Step.cancel 1 0 c6Cfg1 c6CancelState rfl))
    (Step.leaseNone 0 c6Cfg2 _ rfl)

/-- Counterexample to claim C6 as stated: after submit, cancel and one lease
pass, task 1 is still Queued with an empty dependency list, yet the ready
FIFO holds zero references to it (not exactly one) — the cancelled-job skip
path of `lease` pops a ready entry and never restores it. -/
theorem C6_cex_cancelled_skip_drops_ready_entry :
    Reachable RetryPolicy.default_v1 c6Cfg3 ∧
    (∃ r, alookup 1 c6Cfg3.state.records = some r ∧ r.state = TaskState.Queued ∧
      r.depends_on = []) ∧
    List.count 1 c6Cfg3.state.ready = 0 :=
  ⟨c6_reach, ⟨_, rfl, rfl, rfl⟩, rfl⟩

/-- Claim C6 (amended): in every reachable configuration the ready FIFO
references any task at most once, and every ready entry does point at an
existing Queued record with no unresolved dependencies.  The original
"exactly one" direction is false (see the counterexample): skip paths of
`lease` drop ready entries of tasks that stay Queued. -/
theorem C6_ready_entries_at_most_one (p : RetryPolicy) (c : Config)
    (hreach : Reachable p c) (t : TaskId) :
    List.count t c.state.ready ≤ 1 ∧
    (t ∈ c.state.ready → ∃ r, alookup t c.state.records = some r ∧
      r.state = TaskState.Queued ∧ r.depends_on = []) := by
  obtain ⟨hS, hL, hN⟩ := Reachable_CInv p c hreach
  refine ⟨List.nodup_iff_count_le_one.mp hS.2.2.1 t, ?_⟩
  intro ht
  obtain ⟨r, hr, hq⟩ := hS.2.1 t ht
  exact ⟨r, hr, hq, hS.2.2.2.2 t r hr⟩

/-- Witness for the amended C6 at the post-submit configuration: task 1 has
exactly one ready reference, and it is Queued with no dependencies. -/
theorem C6_ready_entries_at_most_one_witness :
    List.count 1 c6Cfg1.state.ready = 1 ∧
    List.count 1 c6Cfg1.state.ready ≤ 1 ∧
    (∃ r, alookup 1 c6Cfg1.state.records = some r ∧
      r.state = TaskState.Queued ∧ r.depends_on = []) :=
  ⟨rfl, (C6_ready_entries_at_most_one RetryPolicy.default_v1 c6Cfg1 c6_reach1 1).1,
    (C6_ready_entries_at_most_one RetryPolicy.default_v1 c6Cfg1 c6_reach1 1).2 (by decide)⟩

/-! ## Claim C4: the attempts budget -/

/-- Task spec of the C4 scenario. -/
def c4TaskSpec : TaskSpec :=
  { title := none, task_type := "t", payload := 0, dependencies_hint := none }

/-- Budget allowing a single attempt per task. -/
def c4Budget : Budget :=
  { max_attempts_per_task := 1, max_total_attempts := none, deadline_ms := none,
    max_no_progress_steps := none }

/-- One-task job whose budget allows one attempt. -/
def c4Spec : JobSpec := { tasks := [c4TaskSpec], budget := c4Budget }

/-- Envelope of task 1 in the C4 trace. -/
def c4Env1 : TaskEnvelope := { task_id := 1, task_type := "t", payload := 0 }

/-- C4 trace: fresh queue. -/
def c4Cfg0 : Config := initConfig RetryPolicy.default_v1

/-- C4 trace: after submitting the one-attempt job at time 0. -/
def c4Cfg1 : Config := { c4Cfg0 with state := (c4Cfg0.state.submit_job c4Spec 0).2 }

/-- The lease on task 1 in the C4 trace. -/
def c4Lease : Lease :=
  { task_id := 1, envelope := c4Env1, retry_policy := RetryPolicy.default_v1 }

/-- C4 trace: after the first lease (task 1 Running, attempts 1 = max). -/
def c4Cfg2 : Config :=
  { state := (c4Cfg1.state.lease 0).1, leases := c4Lease :: c4Cfg1.leases }

/-- C4 trace: after completing the lease with a Retry decision, which the
queue accepts without checking the budget. -/
def c4Cfg3 : Config :=
  { state := c4Cfg2.state.complete c4Lease Outcome.success (Decision.Retry 0 "r") 0,
    leases := c4Cfg2.leases.erase c4Lease }

/-- Record of task 1 after the unguarded retry was scheduled. -/
def c4RecRS : TaskRecord :=
  TaskRecord.schedule_retry 0 ((0 : Rat) + 0) "r"
    (TaskRecord.start_attempt 0 (TaskRecord.new_with_job 0 c4Env1 1 1))

/-- Job record of the C4 trace. -/
def c4Job : JobRecord := JobRecord.add_task 0 1 (JobRecord.new 0 1 c4Spec)

/-- Record of task 1 after the second lease: two attempts against a budget
of one. -/
def c4FinalRec : TaskRecord :=
  TaskRecord.start_attempt 1 (TaskRecord.requeue 1 c4RecRS)

/-- State of the C4 trace after promotion inside the second lease pass. -/
def c4s3promoted : QState :=
  { jobs := [(1, c4Job)]
    records := [(1, TaskRecord.requeue 1 c4RecRS)]
    ready := [1]
    attempts := [(1, AttemptRecord.new 0 1 1 0 [] Outcome.success)]
    decisions := [DecisionRecord.new 0 1 1 "retry_policy" "schedule_retry" (some 0)]
    scheduled := []
    dependency_graph := DependencyGraph.new
    next_job_id := 2
    next_task_id := 2
    next_attempt_id := 2
    retry_policy := RetryPolicy.default_v1 }

/-- State of the C4 trace after the second lease. -/
def c4s4 : QState :=
  { jobs := [(1, c4Job)]
    records := [(1, c4FinalRec)]
    ready := []
    attempts := [(1, AttemptRecord.new 0 1 1 0 [] Outcome.success)]
    decisions := [DecisionRecord.new 0 1 1 "retry_policy" "schedule_retry" (some 0)]
    scheduled := []
    dependency_graph := DependencyGraph.new
    next_job_id := 2
    next_task_id := 2
    next_attempt_id := 2
    retry_policy := RetryPolicy.default_v1 }

theorem c4_promote : QState.promote_scheduled_tasks 1 c4Cfg3.state = c4s3promoted := by
  show QState.promoteLoop c4Cfg3.state.scheduled.length 1 c4Cfg3.state = c4s3promoted
  rw [show c4Cfg3.state.scheduled.length = 1 from rfl]
  unfold QState.promoteLoop
  rw [show QState.popMinSched c4Cfg3.state.scheduled =
    some ({ next_run_at := (0 : Rat) + 0, task_id := 1 }, []) from rfl]
  dsimp only
  rw [if_neg (show ¬ ((1 : Rat) < (0 : Rat) + 0) from by norm_num)]
  show QState.promoteStep 1 { next_run_at := (0 : Rat) + 0, task_id := 1 } [] c4Cfg3.state =
    c4s3promoted
  unfold QState.promoteStep
  rw [show alookup 1 c4Cfg3.state.records = some c4RecRS from rfl]
  dsimp only
  rw [if_pos (show c4RecRS.state = TaskState.RetryScheduled from rfl)]
  rfl

theorem c4_second_lease : QState.lease 1 c4Cfg3.state = (c4s4, some c4Lease) := by
  show QState.leaseLoop (QState.leaseFuel c4Cfg3.state) 1 c4Cfg3.state = (c4s4, some c4Lease)
  rw [show QState.leaseFuel c4Cfg3.state = 2 from rfl]
  unfold QState.leaseLoop
  rw [c4_promote]
  dsimp only
  rw [show c4s3promoted.ready = [1] from rfl]
  dsimp only
  rw [show ((alookup 1 c4s3promoted.records).bind (fun r => r.job_id)) = some 1 from rfl]
  dsimp only
  rw [show alookup 1 c4s3promoted.jobs = some c4Job from rfl]
  dsimp only
  rw [if_neg (show ¬ (c4Job.is_deadline_exceeded 1 = true) from by decide)]
  rw [if_neg (show ¬ (c4Job.state = JobState.Cancelled) from by decide)]
  unfold QState.tryLease
  rw [show alookup 1 ({ c4s3promoted with ready := ([] : List TaskId) } : QState).records =
    some (TaskRecord.requeue 1 c4RecRS) from rfl]
  rfl

/-- C4 trace: after the second lease, task 1 is Running with attempts 2
against max_attempts 1. -/
def c4Cfg4 : Config := { state := c4s4, leases := c4Lease :: c4Cfg3.leases }

theorem c4_reach : Reachable RetryPolicy.default_v1 c4Cfg4 :=
  Relation.ReflTransGen.tail (Relation.ReflTransGen.tail (Relation.ReflTransGen.tail
    (Relation.ReflTransGen.tail Relation.ReflTransGen.refl
    (Step.submit c4Spec 0 c4Cfg0))
    (Step.lease 0 c4Cfg1 _ c4Lease rfl))
    (Step.complete c4Lease Outcome.success (Decision.Retry 0 "r") 0 c4Cfg2
      (List.mem_cons_self _ _)))
    (Step.lease 1 c4Cfg3 c4s4 c4Lease c4_second_lease)

/-- Counterexample to claim C4 as stated: with an arbitrary decision passed
to `complete` (here a Retry issued at attempts = max_attempts), a task
reachable through submit, lease, complete, lease ends with attempts = 2
exceeding max_attempts = 1 — neither `start_attempt` nor `complete` checks
the budget. -/
theorem C4_cex_attempts_exceed_max :
    Reachable RetryPolicy.default_v1 c4Cfg4 ∧
    alookup 1 c4Cfg4.state.records = some c4FinalRec ∧
    c4FinalRec.max_attempts < c4FinalRec.attempts :=
  ⟨c4_reach, rfl, by decide⟩

/-- Guarded step relation for the amended claim C4: identical to `Step`
except that `submit_job` requires a positive per-task attempt budget and
every `complete` is handed a decision produced by the default decider for
the task's current record (which is how the worker produces decisions). -/
inductive StepOK : Config → Config → Prop where
  | enqueue (env : TaskEnvelope) (now : Time) (c : Config) :
      StepOK c { c with state := c.state.enqueue env now }
  | submit (spec : JobSpec) (now : Time) (c : Config) :
      1 ≤ spec.budget.max_attempts_per_task →
      StepOK c { c with state := (c.state.submit_job spec now).2 }
  | cancel (job_id : JobId) (now : Time) (c : Config) (s' : QState) :
      c.state.cancel_job job_id now = some s' →
      StepOK c { c with state := s' }
  | lease (now : Time) (c : Config) (s' : QState) (l : Lease) :
      c.state.lease now = (s', some l) →
      StepOK c { state := s', leases := l :: c.leases }
  | leaseNone (now : Time) (c : Config) (s' : QState) :
      c.state.lease now = (s', none) →
      StepOK c { c with state := s' }
  | complete (l : Lease) (outcome : Outcome) (decision : Decision) (now : Time) (c : Config) :
      l ∈ c.leases →
      (∀ r, alookup l.task_id c.state.records = some r →
        ∃ dd : DefaultDecider, decision = dd.decide r outcome) →
      StepOK c { state := c.state.complete l outcome decision now, leases := c.leases.erase l }
  | ack (l : Lease) (now : Time) (c : Config) :
      l ∈ c.leases →
      StepOK c { state := c.state.ack l now, leases := c.leases.erase l }
  | fail (l : Lease) (error : String) (now : Time) (c : Config) :
      l ∈ c.leases →
      StepOK c { state := c.state.fail l error now, leases := c.leases.erase l }

/-- Configurations reachable through the guarded operations. -/
def ReachableOK (p : RetryPolicy) (c : Config) : Prop :=
  Relation.ReflTransGen StepOK (initConfig p) c

theorem StepOK_toStep {b b' : Config} (h : StepOK b b') : Step b b' := by
  cases h with
  | enqueue env now _ => exact Step.enqueue env now b
  | submit spec now _ hb => exact Step.submit spec now b
  | cancel job_id now _ s2 hcan => exact Step.cancel job_id now b s2 hcan
  | lease now _ s2 l hlease => exact Step.lease now b s2 l hlease
  | leaseNone now _ s2 hlease => exact Step.leaseNone now b s2 hlease
  | complete l outcome decision now _ hmem hdec =>
    exact Step.complete l outcome decision now b hmem
  | ack l now _ hmem => exact Step.ack l now b hmem
  | fail l error now _ hmem => exact Step.fail l error now b hmem

theorem ReachableOK_toReachable (p : RetryPolicy) (c : Config) (h : ReachableOK p c) :
    Reachable p c := by
  induction h with
  | refl => exact Relation.ReflTransGen.refl
  | tail hab hbc ih => exact Relation.ReflTransGen.tail ih (StepOK_toStep hbc)

theorem AInv_stepOK (b b' : Config) (hC : CInv b) (hA : AInv b.state)
    (h : StepOK b b') : AInv b'.state := by
  obtain ⟨hS, hL, hN⟩ := hC
  cases h with
  | enqueue env now _ => exact (enqueue_inv env now b.state hS).2.2 hA
  | submit spec now _ hb => exact (submit_inv spec now b.state hS).2.2 ⟨hA, hb⟩
  | cancel job_id now _ s2 hcan =>
    exact AInv_transfer _ _ (cancel_job_fields job_id now b.state s2 hcan).1 hA
  | lease now _ s2 l hlease =>
    have hkeep := (lease_inv now b.state hS).2.1 hA
    rw [hlease] at hkeep
    exact hkeep
  | leaseNone now _ s2 hlease =>
    have hkeep := (lease_inv now b.state hS).2.1 hA
    rw [hlease] at hkeep
    exact hkeep
  | complete l outcome decision now _ hmem hdec =>
    refine (complete_inv l outcome decision now b.state hS (hL l hmem)).2.2 ⟨hA, ?_⟩
    intro delay reason hdecision rr2 hrr2
    obtain ⟨dd, hdd⟩ := hdec rr2 hrr2
    rw [hdecision] at hdd
    by_cases hcase : rr2.max_attempts ≤ rr2.attempts
    · unfold DefaultDecider.decide at hdd
      rw [if_pos hcase] at hdd
      exact Decision.noConfusion hdd
    · omega
  | ack l now _ hmem => exact (ack_inv l now b.state hS (hL l hmem)).2.2 hA
  | fail l error now _ hmem => exact (fail_inv l error now b.state hS (hL l hmem)).2.2 hA

theorem ReachableOK_AInv (p : RetryPolicy) (c : Config) (h : ReachableOK p c) :
    AInv c.state := by
  induction h with
  | refl =>
    intro k r hk
    exact Option.noConfusion hk
  | tail hab hbc ih =>
    exact AInv_stepOK _ _ (Reachable_CInv p _ (ReachableOK_toReachable p _ hab)) ih hbc

/-- Claim C4 (amended): the invariant attempts ≤ max_attempts holds for
every record in every configuration reachable through the guarded
operations — submissions with a positive per-task budget and completions
whose decision comes from the default decider (which issues Retry only
while attempts < max_attempts).  For arbitrary decisions the claim is false
(see the counterexample). -/
theorem C4_attempts_bounded_under_default_decider (p : RetryPolicy) (c : Config)
    (h : ReachableOK p c) (t : TaskId) (r : TaskRecord)
    (hr : alookup t c.state.records = some r) :
    r.attempts ≤ r.max_attempts :=
  (ReachableOK_AInv p c h t r hr).1

/-- Guarded configuration for the C4 witness: one task enqueued. -/
def c4OkCfg : Config := { c4Cfg0 with state := c4Cfg0.state.enqueue c4Env1 0 }

/-- Witness for the amended C4: after a guarded enqueue the single record
satisfies attempts (0) ≤ max_attempts (5). -/
theorem C4_attempts_bounded_under_default_decider_witness :
    alookup 1 c4OkCfg.state.records = some (TaskRecord.new 0 c4Env1 5) ∧
    (TaskRecord.new 0 c4Env1 5).attempts ≤ (TaskRecord.new 0 c4Env1 5).max_attempts :=
  ⟨rfl, C4_attempts_bounded_under_default_decider RetryPolicy.default_v1 c4OkCfg
    (Relation.ReflTransGen.single (StepOK.enqueue c4Env1 0 c4Cfg0)) 1
    (TaskRecord.new 0 c4Env1 5) rfl⟩

end Weaver
